import Mathlib

/-!
Shallow embedding of three Babylon.js modules and proofs about them:

* `PointerDragBehavior` (behaviors/meshes/pointerDragBehavior.ts): ray/plane
  intersection, axis projection, constructor option validation.
* The `Mesh` thin-instance extension methods (thinInstanceMesh.ts): buffer
  bookkeeping, geometric growth, matrix writes, instance counts.
* `WebXRHandTracking` (features/WebXRHandTracking.ts): the hand registries
  `_attachedHands` / `_trackingHands` and their attach/detach transitions.

Scalar values that are IEEE doubles in the source are modelled as real numbers
(for the geometry, which uses `Math.acos` and square roots) or as rationals
(for the buffer bookkeeping, which only copies values around).  The Babylon
`Vector3` / `Matrix` maths helpers are external library code; they are
modelled by the standard operations on triples of reals that they implement.
-/

namespace Babylon

/-! ## Vector / matrix model (Maths/math.vector, external library code) -/

/-- A Babylon `Vector3`, components modelled as real numbers. -/
structure Vec3 where
  x : ℝ
  y : ℝ
  z : ℝ

/-- Componentwise addition (`Vector3.add`). -/
def Vec3.add (a b : Vec3) : Vec3 := ⟨a.x + b.x, a.y + b.y, a.z + b.z⟩

/-- Componentwise subtraction (`Vector3.subtract`). -/
def Vec3.sub (a b : Vec3) : Vec3 := ⟨a.x - b.x, a.y - b.y, a.z - b.z⟩

/-- Scalar multiplication (`Vector3.scale`). -/
def Vec3.smul (t : ℝ) (a : Vec3) : Vec3 := ⟨t * a.x, t * a.y, t * a.z⟩

/-- Dot product (`Vector3.Dot`). -/
def Vec3.dot (a b : Vec3) : ℝ := a.x * b.x + a.y * b.y + a.z * b.z

/-- Cross product (`Vector3.CrossToRef`). -/
def Vec3.cross (a b : Vec3) : Vec3 :=
  ⟨a.y * b.z - a.z * b.y, a.z * b.x - a.x * b.z, a.x * b.y - a.y * b.x⟩

/-- Euclidean length (`Vector3.length`). -/
noncomputable def Vec3.length (a : Vec3) : ℝ :=
  Real.sqrt (a.x * a.x + a.y * a.y + a.z * a.z)

/-- `Vector3.normalize`: scales by `1 / length`; a zero vector is returned
unchanged (the source returns the vector untouched when its length is `0`). -/
noncomputable def Vec3.normalize (a : Vec3) : Vec3 :=
  if a.length = 0 then a else Vec3.smul (1 / a.length) a

/-- The rotation part of a node world matrix (`Matrix.getRotationMatrix`),
modelled as a 3x3 real matrix; `a10` is entry `m[4]` of the Babylon matrix. -/
structure Mat3 where
  a00 : ℝ
  a01 : ℝ
  a02 : ℝ
  a10 : ℝ
  a11 : ℝ
  a12 : ℝ
  a20 : ℝ
  a21 : ℝ
  a22 : ℝ

/-- `Vector3.TransformCoordinates` with a rotation matrix: Babylon uses the
row-vector convention, so the transformed x is `x*m[0] + y*m[4] + z*m[8]`
(the homogeneous `w` is `1` for a rotation matrix). -/
def Mat3.transformCoordinates (v : Vec3) (m : Mat3) : Vec3 :=
  ⟨v.x * m.a00 + v.y * m.a10 + v.z * m.a20,
   v.x * m.a01 + v.y * m.a11 + v.z * m.a21,
   v.x * m.a02 + v.y * m.a12 + v.z * m.a22⟩

/-- A picking ray (`Culling/ray.ts`). -/
structure Ray3 where
  origin : Vec3
  direction : Vec3

/-- `Epsilon` from Maths/math.constants (`0.001`). -/
noncomputable def Epsilon : ℝ := 1 / 1000

/-! ## PointerDragBehavior (src/unnamed/part_002) -/

/-- The `options` object of `PointerDragBehavior`: at most one of `dragAxis`
and `dragPlaneNormal` may be set. -/
structure DragOptions where
  dragAxis : Option Vec3
  dragPlaneNormal : Option Vec3

/-- The constructor of `PointerDragBehavior` (part_002 lines 181-195).
`_options` is set to the passed options or `{}`; then one `optionCount` is
added per truthy drag mode and the constructor throws when more than one mode
is present.  JS objects are truthy, so a mode counts exactly when present. -/
def PointerDragBehavior.construct (options : Option DragOptions) :
    Except String DragOptions :=
  let opts := options.getD ⟨none, none⟩
  let optionCount := (if opts.dragAxis.isSome then 1 else 0) +
    (if opts.dragPlaneNormal.isSome then 1 else 0)
  if optionCount > 1 then
    Except.error "Multiple drag modes specified in dragBehavior options. Only one expected"
  else
    Except.ok opts

/-- The mutable state of a `PointerDragBehavior` that the drag-math methods
read and write.  The attached node's world-matrix rotation and absolute
position, and the active camera's forward direction, are snapshots of the
external scene objects the methods consult. -/
structure DragState where
  options : DragOptions
  useObjectOrientationForDragging : Bool
  updateDragPlane : Bool
  maxDragAngle : ℝ
  useAlternatePickedPointAboveMaxDragAngle : Bool
  nodeRotation : Mat3
  nodeAbsolutePosition : Vec3
  cameraForward : Vec3
  planeForward : Vec3
  planePosition : Vec3
  lastDragPosition : Vec3
  targetPosition : Vec3
  dragDelta : Vec3
  moving : Bool

/-- `_useAlternatePickedPointAboveMaxDragAngleDragSpeed` (part_002 line 33). -/
noncomputable def alternateDragSpeed : ℝ := -11 / 10

/-- The angle computed at the top of `_pickWithRayOnDragPlane` (part_002
lines 505-509): `acos` of the dot product of the plane forward and the ray
direction, folded into `[0, pi/2]` when the ray comes from the other side. -/
noncomputable def dragAngle (st : DragState) (r : Ray3) : ℝ :=
  let angle := Real.arccos (Vec3.dot st.planeForward r.direction)
  if angle > Real.pi / 2 then Real.pi - angle else angle

/-- `PointerDragBehavior._pickWithRayOnDragPlane` (part_002 lines 499-553). -/
noncomputable def pickWithRayOnDragPlane (st : DragState) (ray : Option Ray3) :
    Option Vec3 :=
  match ray with
  | none => none
  | some r =>
    if st.maxDragAngle > 0 ∧ dragAngle st r > st.maxDragAngle then
      if st.useAlternatePickedPointAboveMaxDragAngle then
        let tmpVector := r.direction
        let alt := Vec3.normalize (Vec3.sub st.nodeAbsolutePosition r.origin)
        let alt := Vec3.smul (alternateDragSpeed * Vec3.dot alt tmpVector) alt
        let tmpVector := Vec3.add tmpVector alt
        let d := Vec3.dot st.planeForward tmpVector
        let alt := Vec3.smul (-d) st.planeForward
        some (Vec3.add (Vec3.add alt tmpVector) st.nodeAbsolutePosition)
      else
        none
    else
      let dotProduct := Vec3.dot r.direction st.planeForward
      if |dotProduct| < Epsilon then none
      else
        let t := Vec3.dot (Vec3.sub st.planePosition r.origin) st.planeForward / dotProduct
        if t < 0 then none
        else some (Vec3.add r.origin (Vec3.smul t r.direction))

/-- `PointerDragBehavior._updateDragPlanePosition` (part_002 lines 561-607).
The external `TransformNode.lookAt` orients the plane mesh so that its local
`+z` (its `forward`) points at the target; it is modelled as setting the
forward to the normalized direction from the plane position to the target.
The final `copyFrom` on line 604 overwrites the plane position with the
attached node's absolute position. -/
noncomputable def updateDragPlanePosition (st : DragState) (ray : Ray3)
    (dragPlanePosition : Vec3) : DragState :=
  let pointA := dragPlanePosition
  let st1 :=
    match st.options.dragAxis with
    | some axis =>
      let localAxis := if st.useObjectOrientationForDragging then
          Mat3.transformCoordinates axis st.nodeRotation else axis
      let pointC := Vec3.normalize (Vec3.sub ray.origin pointA)
      let lookAtDir :=
        if |Vec3.dot localAxis pointC| > 999 / 1000 then
          if |Vec3.dot ⟨0, 1, 0⟩ pointC| > 999 / 1000 then (⟨1, 0, 0⟩ : Vec3)
          else (⟨0, 1, 0⟩ : Vec3)
        else
          Vec3.normalize (Vec3.cross localAxis (Vec3.cross localAxis pointC))
      { st with planePosition := pointA,
                planeForward := Vec3.normalize (Vec3.sub (Vec3.add pointA lookAtDir) pointA) }
    | none =>
      match st.options.dragPlaneNormal with
      | some n =>
        let localAxis := if st.useObjectOrientationForDragging then
            Mat3.transformCoordinates n st.nodeRotation else n
        { st with planePosition := pointA,
                  planeForward := Vec3.normalize (Vec3.sub (Vec3.add pointA localAxis) pointA) }
      | none =>
        let localAxis := Vec3.normalize st.cameraForward
        { st with planePosition := pointA,
                  planeForward := Vec3.normalize (Vec3.sub (Vec3.add pointA localAxis) pointA) }
  { st1 with planePosition := st.nodeAbsolutePosition }

/-- The payload handed to `onDragObservable` observers in `_moveDrag`. -/
structure DragEvent where
  dragDistance : ℝ
  delta : Vec3
  dragPlanePoint : Vec3
  dragPlaneNormal : Vec3

/-- `PointerDragBehavior._moveDrag` (part_002 lines 457-497).  Returns the
state after the call together with the event notified to `onDragObservable`
observers (`none` when the plane pick failed and no event fired). -/
noncomputable def moveDrag (st : DragState) (ray : Ray3) :
    DragState × Option DragEvent :=
  let st := { st with moving := true }
  match pickWithRayOnDragPlane st (some ray) with
  | none => (st, none)
  | some pickedPoint =>
    let st := if st.updateDragPlane then updateDragPlanePosition st ray pickedPoint else st
    match st.options.dragAxis with
    | some axis =>
      let worldDragAxis := if st.useObjectOrientationForDragging then
          Mat3.transformCoordinates axis st.nodeRotation else axis
      let tmpVector := Vec3.sub pickedPoint st.lastDragPosition
      let worldDragAxis := Vec3.normalize worldDragAxis
      let dragLength := Vec3.dot tmpVector worldDragAxis
      let dragDelta := Vec3.smul dragLength worldDragAxis
      let st := { st with targetPosition := Vec3.add st.targetPosition dragDelta,
                          dragDelta := dragDelta }
      let ev : DragEvent := ⟨dragLength, dragDelta, pickedPoint, st.planeForward⟩
      ({ st with lastDragPosition := pickedPoint }, some ev)
    | none =>
      let dragLength := Vec3.length st.dragDelta
      let dragDelta := Vec3.sub pickedPoint st.lastDragPosition
      let st := { st with targetPosition := Vec3.add st.targetPosition dragDelta,
                          dragDelta := dragDelta }
      let ev : DragEvent := ⟨dragLength, dragDelta, pickedPoint, st.planeForward⟩
      ({ st with lastDragPosition := pickedPoint }, some ev)

/-- A concrete drag state (plane through `(0,0,5)` facing `+z`, all drag
options off) used to exercise the drag-behavior theorems on explicit
inputs. -/
def sampleDragState : DragState :=
  { options := ⟨Option.none, Option.none⟩
    useObjectOrientationForDragging := false
    updateDragPlane := false
    maxDragAngle := 0
    useAlternatePickedPointAboveMaxDragAngle := false
    nodeRotation := ⟨1, 0, 0, 0, 1, 0, 0, 0, 1⟩
    nodeAbsolutePosition := ⟨0, 0, 0⟩
    cameraForward := ⟨0, 0, 1⟩
    planeForward := ⟨0, 0, 1⟩
    planePosition := ⟨0, 0, 5⟩
    lastDragPosition := ⟨0, 0, 0⟩
    targetPosition := ⟨0, 0, 0⟩
    dragDelta := ⟨0, 0, 0⟩
    moving := false }

/-! ## Thin instances (src/unnamed/part_003)

Float values are only copied around by this module, never computed with, so
they are modelled as rationals.  GPU-side objects (`Buffer`, `VertexBuffer`)
are external engine types; the model keeps one boolean per buffer recording
whether the buffer object currently exists. -/

/-- `VertexBuffer.ColorKind`. -/
def ColorKind : String := "color"

/-- `VertexBuffer.ColorInstanceKind`. -/
def ColorInstanceKind : String := "instanceColor"

/-- The backward-compatibility renaming `if (kind === VertexBuffer.ColorKind)
kind = VertexBuffer.ColorInstanceKind` found at the top of several methods. -/
def renameColorKind (kind : String) : String :=
  if kind = ColorKind then ColorInstanceKind else kind

/-- The `_thinInstanceDataStorage` object of a `Mesh`.  `worldMatrices` is the
lazy world-matrix cache, modelled as a total map from instance index to the
cached matrix (or `none` while the cache does not exist). -/
structure ThinInstanceDataStorage where
  instancesCount : ℕ
  matrixData : Option (Array ℚ)
  matrixBufferSize : ℕ
  matrixBuffer : Bool
  previousMatrixData : Option (Array ℚ)
  previousMatrixBuffer : Bool
  worldMatrices : Option (ℕ → Array ℚ)

/-- `_userThinInstanceBuffersStorage`: per-kind data, sizes and strides.  A
stride of `0` models an absent (`undefined`, hence falsy) entry, matching the
truthiness test `!strides[kind]` in the source. -/
structure UserThinInstanceBuffersStorage where
  data : String → Option (Array ℚ)
  sizes : String → ℕ
  strides : String → ℕ

/-- The slice of a `Mesh` the thin-instance methods read and write.
`instancedArrays` is the engine capability checked by `thinInstanceAdd`;
`sourceMatrixData` is `this.source?._thinInstanceDataStorage.matrixData`,
consulted by the `thinInstanceCount` setter. -/
structure ThinMesh where
  instancedArrays : Bool
  needsPreviousWorldMatrices : Bool
  doNotSyncBoundingInfo : Bool
  thinInstanceDataStorage : ThinInstanceDataStorage
  userStorage : Option UserThinInstanceBuffersStorage
  sourceMatrixData : Option (Array ℚ)

/-- The `while (newSize < bufferSize) newSize *= 2` loop of
`_thinInstanceUpdateBufferSize`.  When the current size is `0` and the target
positive the source loop never terminates; the model returns `0` in that case
and every theorem below assumes a positive current size. -/
def growSize (cur target : ℕ) : ℕ :=
  if cur < target then
    if h : cur = 0 then 0
    else growSize (cur * 2) target
  else cur
termination_by target - cur
decreasing_by
  exact Nat.sub_lt_sub_left (by omega) (by omega)

/-- The 16-float write loop of `Matrix.copyToArray(matrixData, index * 16)`:
entry `offset + j` receives float `j` of the matrix for `j < 16`, writes past
the end of the typed array are dropped, everything else is untouched. -/
def writeMatrixAt (data : Array ℚ) (offset : ℕ) (mat : Array ℚ) : Array ℚ :=
  Array.ofFn (n := data.size) (fun k =>
    if offset ≤ k.1 ∧ k.1 < offset + 16 then mat.getD (k.1 - offset) 0 else data[k])

/-- `Mesh.thinInstanceSetMatrixAt` (part_003 lines 171-193).  Returns the
boolean result together with the mesh state after the call.  A truthy
`refresh` triggers `thinInstanceBufferUpdated` (a GPU upload) and a
bounding-info refresh, neither of which changes the modelled fields. -/
def thinInstanceSetMatrixAt (m : ThinMesh) (index : ℕ) (mat : Array ℚ)
    (_refresh : Bool) : Bool × ThinMesh :=
  match m.thinInstanceDataStorage.matrixData with
  | none => (false, m)
  | some data =>
    if index ≥ m.thinInstanceDataStorage.instancesCount then (false, m)
    else
      let data := writeMatrixAt data (index * 16) mat
      let worldMatrices := match m.thinInstanceDataStorage.worldMatrices with
        | none => none
        | some ws => some (fun n => if n = index then mat else ws n)
      (true, { m with thinInstanceDataStorage := { m.thinInstanceDataStorage with
          matrixData := some data, worldMatrices := worldMatrices } })

/-- `Mesh._thinInstanceUpdateBufferSize` (part_003 lines 438-490). -/
def thinInstanceUpdateBufferSize (m : ThinMesh) (kind0 : String)
    (numInstances : ℕ) : ThinMesh :=
  let kind := renameColorKind kind0
  if kind = "matrix" then
    let st := m.thinInstanceDataStorage
    let currentSize := st.matrixBufferSize
    let bufferSize := (st.instancesCount + numInstances) * 16
    let newSize := growSize currentSize bufferSize
    if st.matrixData.isNone ∨ currentSize ≠ newSize then
      let newData : Array ℚ := match st.matrixData with
        | none => Array.mkArray newSize 0
        | some d => d ++ Array.mkArray (newSize - d.size) 0
      { m with thinInstanceDataStorage := { st with
          matrixData := some newData,
          matrixBufferSize := newSize,
          matrixBuffer := true,
          previousMatrixBuffer :=
            if m.needsPreviousWorldMatrices && st.previousMatrixData.isNone then true
            else st.previousMatrixBuffer } }
    else m
  else
    match m.userStorage with
    | none => m
    | some u =>
      if u.strides kind = 0 then m
      else
        let stride := u.strides kind
        let currentSize := u.sizes kind
        let bufferSize := (m.thinInstanceDataStorage.instancesCount + numInstances) * stride
        let newSize := growSize currentSize bufferSize
        if (u.data kind).isNone ∨ currentSize ≠ newSize then
          let newData : Array ℚ := match u.data kind with
            | none => Array.mkArray newSize 0
            | some d => d ++ Array.mkArray (newSize - d.size) 0
          { m with userStorage := some { u with
              data := fun k => if k = kind then some newData else u.data k,
              sizes := fun k => if k = kind then newSize else u.sizes k } }
        else m

/-- The loop body of `thinInstanceAdd`: for each matrix, `instancesCount++`
is evaluated (passing the old count and incrementing it before the call) and
`thinInstanceSetMatrixAt` is invoked, refreshing only on the last entry. -/
def thinInstanceAddLoop (m : ThinMesh) (mats : List (Array ℚ)) (refresh : Bool) :
    ThinMesh :=
  match mats with
  | [] => m
  | mat :: rest =>
    let c := m.thinInstanceDataStorage.instancesCount
    let m := { m with thinInstanceDataStorage :=
        { m.thinInstanceDataStorage with instancesCount := c + 1 } }
    let m := (thinInstanceSetMatrixAt m c mat (rest.isEmpty && refresh)).2
    thinInstanceAddLoop m rest refresh

/-- `Mesh.thinInstanceAdd` (part_003 lines 128-147), taking the list of
matrices to add.  A call with a single matrix behaves exactly like a call
with the one-element list: the source's two branches pass the same
`numInstances`, index and refresh flag in that case. -/
def thinInstanceAdd (m : ThinMesh) (mats : List (Array ℚ)) (refresh : Bool) :
    ℤ × ThinMesh :=
  if !m.instancedArrays then (-1, m)
  else
    let m1 := thinInstanceUpdateBufferSize m "matrix" mats.length
    let index := m1.thinInstanceDataStorage.instancesCount
    ((index : ℤ), thinInstanceAddLoop m1 mats refresh)

/-- `this._thinInstanceDataStorage.matrixData ?? this.source?._thinInstanceDataStorage.matrixData`
as read by the `thinInstanceCount` setter. -/
def effectiveMatrixData (m : ThinMesh) : Option (Array ℚ) :=
  match m.thinInstanceDataStorage.matrixData with
  | some d => some d
  | none => m.sourceMatrixData

/-- `numMaxInstances` of the `thinInstanceCount` setter: `matrixData.length / 16`
computed with JS number division, modelled over the rationals (`0` when no
matrix data exists). -/
def thinInstanceCapacity (m : ThinMesh) : ℚ :=
  match effectiveMatrixData m with
  | some d => (d.size : ℚ) / 16
  | none => 0

/-- The `thinInstanceCount` setter (part_003 lines 216-230). -/
def setThinInstanceCount (m : ThinMesh) (value : ℕ) : ThinMesh :=
  if (value : ℚ) ≤ thinInstanceCapacity m then
    { m with thinInstanceDataStorage :=
        { m.thinInstanceDataStorage with instancesCount := value } }
  else m

/-- The stride the buffer-size update uses for a (renamed) kind: `16` for
`"matrix"`, the registered stride otherwise (`0` when absent). -/
def kindStride (m : ThinMesh) (kind : String) : ℕ :=
  if kind = "matrix" then 16
  else match m.userStorage with
    | some u => u.strides kind
    | none => 0

/-- The `currentSize` the buffer-size update reads for a (renamed) kind. -/
def kindCurrentSize (m : ThinMesh) (kind : String) : ℕ :=
  if kind = "matrix" then m.thinInstanceDataStorage.matrixBufferSize
  else match m.userStorage with
    | some u => u.sizes kind
    | none => 0

/-- The backing data the buffer-size update reads for a (renamed) kind. -/
def kindData (m : ThinMesh) (kind : String) : Option (Array ℚ) :=
  if kind = "matrix" then m.thinInstanceDataStorage.matrixData
  else match m.userStorage with
    | some u => u.data kind
    | none => Option.none

/-- A concrete mesh (capacity one instance, one instance live, an all-zero
matrix buffer of 16 floats) used to exercise the thin-instance theorems. -/
def sampleThinMesh : ThinMesh :=
  { instancedArrays := true
    needsPreviousWorldMatrices := false
    doNotSyncBoundingInfo := true
    thinInstanceDataStorage :=
      { instancesCount := 1
        matrixData := some (Array.mkArray 16 0)
        matrixBufferSize := 16
        matrixBuffer := true
        previousMatrixData := Option.none
        previousMatrixBuffer := false
        worldMatrices := Option.none }
    userStorage := Option.none
    sourceMatrixData := Option.none }

/-! ## WebXR hand tracking registries (src/unnamed/part_001) -/

/-- `XRHandedness`. -/
inductive Handedness where
  | left
  | right
  | none
deriving DecidableEq

/-- The slice of a `WebXRInputSource` the hand registries consult:
`uniqueId`, whether `inputSource.hand` is present, and the handedness. -/
structure Controller where
  uniqueId : String
  hasHand : Bool
  handedness : Handedness
deriving DecidableEq

/-- A `WebXRHand`, identified by the controller it was created for. -/
structure WebXRHand where
  xrController : Controller
deriving DecidableEq

/-- Side effects the registry operations perform, in order:
`onHandAddedObservable` / `onHandRemovedObservable` notifications and hand
disposal. -/
inductive HandEvent where
  | added (hand : WebXRHand)
  | removed (hand : WebXRHand)
  | disposed (hand : WebXRHand)
deriving DecidableEq

/-- The registries of `WebXRHandTracking`: `_attachedHands` keyed by
controller `uniqueId`, `_trackingHands.left` / `_trackingHands.right`, and
whether `_handResources.jointMeshes` has been created (it is created by
`attach()` before any hand is attached). -/
structure HandTrackingState where
  jointMeshes : Bool
  attachedHands : String → Option WebXRHand
  trackingLeft : Option WebXRHand
  trackingRight : Option WebXRHand

/-- The state of a freshly constructed `WebXRHandTracking` feature. -/
def initialHandTrackingState : HandTrackingState :=
  { jointMeshes := false, attachedHands := fun _ => Option.none,
    trackingLeft := Option.none, trackingRight := Option.none }

/-- `_trackingHands[h]` for `h` one of the two stored fields.  The source
object has only `left` and `right` fields; indexing with `none` never happens
(the accessor below and `_attachHand` guard it away) and yields nothing. -/
def trackingHands (st : HandTrackingState) (h : Handedness) : Option WebXRHand :=
  match h with
  | .left => st.trackingLeft
  | .right => st.trackingRight
  | .none => Option.none

/-- `WebXRHandTracking.getHandByControllerId` (part_001 lines 753-755). -/
def getHandByControllerId (st : HandTrackingState) (controllerId : String) :
    Option WebXRHand :=
  st.attachedHands controllerId

/-- `WebXRHandTracking.getHandByHandedness` (part_001 lines 762-767). -/
def getHandByHandedness (st : HandTrackingState) (handedness : Handedness) :
    Option WebXRHand :=
  if handedness = .none then Option.none
  else trackingHands st handedness

/-- Whether `_attachHand` creates a hand for this controller: the input
source must have a `hand` and a handedness other than `"none"`. -/
def eligibleController (c : Controller) : Bool :=
  c.hasHand && !(c.handedness = Handedness.none)

/-- `WebXRHandTracking._attachHand` (part_001 lines 881-901), returning the
new state and the notifications fired. -/
def attachHand (st : HandTrackingState) (c : Controller) :
    HandTrackingState × List HandEvent :=
  if !c.hasHand || c.handedness = Handedness.none || !st.jointMeshes then (st, [])
  else
    let hand : WebXRHand := ⟨c⟩
    ({ st with
        attachedHands := fun id => if id = c.uniqueId then some hand else st.attachedHands id,
        trackingLeft := if c.handedness = .left then some hand else st.trackingLeft,
        trackingRight := if c.handedness = .right then some hand else st.trackingRight },
     [HandEvent.added hand])

/-- `WebXRHandTracking._detachHandById` (part_001 lines 903-914), returning
the new state and the side effects in source order: the
`onHandRemovedObservable` notification fires before the hand is disposed. -/
def detachHandById (st : HandTrackingState) (controllerId : String) :
    HandTrackingState × List HandEvent :=
  match getHandByControllerId st controllerId with
  | Option.none => (st, [])
  | some hand =>
    let handedness : Handedness :=
      if hand.xrController.handedness = .left then .left else .right
    let tracked := trackingHands st handedness
    let clear : Bool := match tracked with
      | some h => h.xrController.uniqueId = controllerId
      | Option.none => false
    let st := if clear then
        (if handedness = .left then { st with trackingLeft := Option.none }
         else { st with trackingRight := Option.none })
      else st
    let st := { st with attachedHands :=
        fun id => if id = controllerId then Option.none else st.attachedHands id }
    (st, [HandEvent.removed hand, HandEvent.disposed hand])

/-- The loop in `attach()` over `options.xrInput.controllers`; controllers
later reported by `onControllerAddedObservable` go through the very same
`_attachHand` callback. -/
def attachHands (st : HandTrackingState) (ctrls : List Controller) :
    HandTrackingState × List HandEvent :=
  match ctrls with
  | [] => (st, [])
  | c :: rest =>
    let p := attachHand st c
    let q := attachHands p.1 rest
    (q.1, p.2 ++ q.2)

/-- `WebXRHandTracking.attach` (part_001 lines 829-874) restricted to the
hand registries: the joint meshes are created first, then `_attachHand` runs
for every controller already present in `options.xrInput.controllers`. -/
def handTrackingAttach (st : HandTrackingState) (ctrls : List Controller) :
    HandTrackingState × List HandEvent :=
  attachHands { st with jointMeshes := true } ctrls

/-- States of the hand registries reachable by the feature's transitions.
Attach steps carry the freshness guarantee of WebXR input: a newly reported
controller's `uniqueId` is not already a key of `_attachedHands`. -/
inductive ReachableHandState : HandTrackingState → Prop where
  | init : ReachableHandState initialHandTrackingState
  | featureAttach (st : HandTrackingState) : ReachableHandState st →
      ReachableHandState { st with jointMeshes := true }
  | attachStep (st : HandTrackingState) (c : Controller) : ReachableHandState st →
      st.attachedHands c.uniqueId = Option.none →
      ReachableHandState (attachHand st c).1
  | detachStep (st : HandTrackingState) (id : String) : ReachableHandState st →
      ReachableHandState (detachHandById st id).1

/-- The consistency invariant of the hand registries: every attached hand is
stored under its controller's `uniqueId`, and each tracked hand is attached
under its id with the matching handedness. -/
def HandInvariant (st : HandTrackingState) : Prop :=
  (∀ id hand, st.attachedHands id = some hand → hand.xrController.uniqueId = id) ∧
  (∀ hand, st.trackingLeft = some hand →
    st.attachedHands hand.xrController.uniqueId = some hand ∧
    hand.xrController.handedness = Handedness.left) ∧
  (∀ hand, st.trackingRight = some hand →
    st.attachedHands hand.xrController.uniqueId = some hand ∧
    hand.xrController.handedness = Handedness.right)

/-! ## Theorems: PointerDragBehavior -/

/-- **C1.** `PointerDragBehavior._pickWithRayOnDragPlane` computes a ray/plane
intersection: for a drag plane with position `p` and unit forward normal `n`,
and a ray with origin `o` and direction `d` such that `|d . n| >= Epsilon` and
`t = ((p - o) . n) / (d . n) >= 0`, with `maxDragAngle = 0` so the angle check
is skipped, the function returns the point `o + t*d` (on the ray since
`t >= 0`), which satisfies the plane equation `(result - p) . n = 0`. -/
theorem pick_computes_ray_plane_intersection (st : DragState) (r : Ray3) (t : ℝ)
    (htdef : t = Vec3.dot (Vec3.sub st.planePosition r.origin) st.planeForward /
      Vec3.dot r.direction st.planeForward)
    (hangle : st.maxDragAngle = 0)
    (_hunit : Vec3.length st.planeForward = 1)
    (hdot : Epsilon ≤ |Vec3.dot r.direction st.planeForward|)
    (ht : 0 ≤ t) :
    pickWithRayOnDragPlane st (some r) =
      some (Vec3.add r.origin (Vec3.smul t r.direction)) ∧
    Vec3.dot (Vec3.sub (Vec3.add r.origin (Vec3.smul t r.direction)) st.planePosition)
      st.planeForward = 0 := by
  have hne : Vec3.dot r.direction st.planeForward ≠ 0 := by
    intro h
    rw [h, abs_zero, Epsilon] at hdot
    norm_num at hdot
  have h1 : ¬(st.maxDragAngle > 0 ∧ dragAngle st r > st.maxDragAngle) := by
    rw [hangle]; simp
  have h2 : ¬(|Vec3.dot r.direction st.planeForward| < Epsilon) := not_lt.mpr hdot
  have h3 : ¬(Vec3.dot (Vec3.sub st.planePosition r.origin) st.planeForward /
      Vec3.dot r.direction st.planeForward < 0) := by
    rw [← htdef]; exact not_lt.mpr ht
  constructor
  · simp only [pickWithRayOnDragPlane]
    rw [if_neg h1, if_neg h2, if_neg h3, ← htdef]
  · subst htdef
    simp only [Vec3.dot] at hne
    simp only [Vec3.dot, Vec3.sub, Vec3.add, Vec3.smul]
    field_simp
    ring

/-- Witness for C1: plane through `(0,0,5)` facing `+z`, ray from the origin
along `+z`; the intersection parameter is `5` and the pick returns
`(0,0,0) + 5*(0,0,1)`. -/
theorem pick_computes_ray_plane_intersection_witness :
    Vec3.dot (Vec3.sub sampleDragState.planePosition (Vec3.mk 0 0 0)) sampleDragState.planeForward /
      Vec3.dot (Vec3.mk 0 0 1) sampleDragState.planeForward = 5 ∧
    pickWithRayOnDragPlane sampleDragState (some ⟨⟨0, 0, 0⟩, ⟨0, 0, 1⟩⟩) =
      some (Vec3.add ⟨0, 0, 0⟩ (Vec3.smul 5 ⟨0, 0, 1⟩)) ∧
    Vec3.dot (Vec3.sub (Vec3.add ⟨0, 0, 0⟩ (Vec3.smul 5 ⟨0, 0, 1⟩))
      sampleDragState.planePosition) sampleDragState.planeForward = 0 := by
  have h5 : Vec3.dot (Vec3.sub sampleDragState.planePosition (Vec3.mk 0 0 0)) sampleDragState.planeForward /
      Vec3.dot (Vec3.mk 0 0 1) sampleDragState.planeForward = 5 := by
    norm_num [sampleDragState, Vec3.dot, Vec3.sub]
  have hunit : Vec3.length sampleDragState.planeForward = 1 := by
    simp [sampleDragState, Vec3.length]
  have hdot : Epsilon ≤ |Vec3.dot (Vec3.mk 0 0 1) sampleDragState.planeForward| := by
    norm_num [sampleDragState, Vec3.dot, Epsilon]
  have hmain := pick_computes_ray_plane_intersection sampleDragState ⟨⟨0, 0, 0⟩, ⟨0, 0, 1⟩⟩ 5
    h5.symm rfl hunit hdot (by norm_num)
  exact ⟨h5, hmain.1, hmain.2⟩

/-- **C3.** With `maxDragAngle = 0`, `_pickWithRayOnDragPlane` returns `null`
iff the ray is null, or `|d . n| < Epsilon` (ray parallel to the plane), or
the intersection parameter `t = ((p - o) . n) / (d . n)` is negative; and when
`maxDragAngle > 0`, the ray/normal angle folded into `[0, pi/2]` exceeds
`maxDragAngle` and `_useAlternatePickedPointAboveMaxDragAngle` is false, it
also returns `null`. -/
theorem pick_returns_null_iff (st : DragState) (ray : Option Ray3) :
    (st.maxDragAngle = 0 →
      (pickWithRayOnDragPlane st ray = Option.none ↔
        ray = Option.none ∨ ∃ r, ray = some r ∧
          (|Vec3.dot r.direction st.planeForward| < Epsilon ∨
            Vec3.dot (Vec3.sub st.planePosition r.origin) st.planeForward /
              Vec3.dot r.direction st.planeForward < 0))) ∧
    (∀ r, ray = some r → 0 < st.maxDragAngle → st.maxDragAngle < dragAngle st r →
      st.useAlternatePickedPointAboveMaxDragAngle = false →
      pickWithRayOnDragPlane st ray = Option.none) := by
  constructor
  · intro h0
    cases ray with
    | none => simp [pickWithRayOnDragPlane]
    | some r =>
      have h1 : ¬(st.maxDragAngle > 0 ∧ dragAngle st r > st.maxDragAngle) := by
        rw [h0]; simp
      simp only [pickWithRayOnDragPlane, if_neg h1]
      by_cases h2 : |Vec3.dot r.direction st.planeForward| < Epsilon
      · rw [if_pos h2]
        exact iff_of_true rfl (Or.inr ⟨r, rfl, Or.inl h2⟩)
      · rw [if_neg h2]
        by_cases h3 : Vec3.dot (Vec3.sub st.planePosition r.origin) st.planeForward /
            Vec3.dot r.direction st.planeForward < 0
        · rw [if_pos h3]
          exact iff_of_true rfl (Or.inr ⟨r, rfl, Or.inr h3⟩)
        · rw [if_neg h3]
          refine iff_of_false (by simp) ?_
          rintro (h | ⟨r', hr', hcase⟩)
          · exact Option.noConfusion h
          · cases Option.some.inj hr'
            rcases hcase with hc | hc
            · exact h2 hc
            · exact h3 hc
  · rintro r rfl hpos hang halt
    simp only [pickWithRayOnDragPlane]
    rw [if_pos ⟨hpos, hang⟩]
    simp [halt]

/-- Witness for C3: with `maxDragAngle = 0` and a ray orthogonal to the plane
normal (`d . n = 0 < Epsilon`), the pick returns `null`. -/
theorem pick_returns_null_iff_witness :
    sampleDragState.maxDragAngle = 0 ∧
    pickWithRayOnDragPlane sampleDragState (some ⟨⟨0, 0, 0⟩, ⟨1, 0, 0⟩⟩) = Option.none :=
  ⟨rfl, ((pick_returns_null_iff sampleDragState _).1 rfl).mpr
    (Or.inr ⟨_, rfl, Or.inl (by norm_num [Vec3.dot, sampleDragState, Epsilon])⟩)⟩

/-- Setting the `_moving` flag does not change what `_pickWithRayOnDragPlane`
computes. -/
theorem pickWithRayOnDragPlane_set_moving (st : DragState) (b : Bool) (ray : Option Ray3) :
    pickWithRayOnDragPlane { st with moving := b } ray = pickWithRayOnDragPlane st ray := rfl

/-- `_updateDragPlanePosition` does not change the behavior options. -/
theorem updateDragPlanePosition_options (st : DragState) (ray : Ray3) (p : Vec3) :
    (updateDragPlanePosition st ray p).options = st.options := by
  unfold updateDragPlanePosition
  rcases hA : st.options.dragAxis with _ | axis
  · rcases hN : st.options.dragPlaneNormal with _ | n <;> simp [hA, hN]
  · simp [hA]

/-- `_updateDragPlanePosition` does not change the orientation flag. -/
theorem updateDragPlanePosition_useObjectOrientation (st : DragState) (ray : Ray3) (p : Vec3) :
    (updateDragPlanePosition st ray p).useObjectOrientationForDragging =
      st.useObjectOrientationForDragging := by
  unfold updateDragPlanePosition
  rcases hA : st.options.dragAxis with _ | axis
  · rcases hN : st.options.dragPlaneNormal with _ | n <;> simp [hA, hN]
  · simp [hA]

/-- `_updateDragPlanePosition` does not change the node rotation snapshot. -/
theorem updateDragPlanePosition_nodeRotation (st : DragState) (ray : Ray3) (p : Vec3) :
    (updateDragPlanePosition st ray p).nodeRotation = st.nodeRotation := by
  unfold updateDragPlanePosition
  rcases hA : st.options.dragAxis with _ | axis
  · rcases hN : st.options.dragPlaneNormal with _ | n <;> simp [hA, hN]
  · simp [hA]

/-- `_updateDragPlanePosition` does not change `lastDragPosition`. -/
theorem updateDragPlanePosition_lastDragPosition (st : DragState) (ray : Ray3) (p : Vec3) :
    (updateDragPlanePosition st ray p).lastDragPosition = st.lastDragPosition := by
  unfold updateDragPlanePosition
  rcases hA : st.options.dragAxis with _ | axis
  · rcases hN : st.options.dragPlaneNormal with _ | n <;> simp [hA, hN]
  · simp [hA]

/-- `_updateDragPlanePosition` does not change `_targetPosition`. -/
theorem updateDragPlanePosition_targetPosition (st : DragState) (ray : Ray3) (p : Vec3) :
    (updateDragPlanePosition st ray p).targetPosition = st.targetPosition := by
  unfold updateDragPlanePosition
  rcases hA : st.options.dragAxis with _ | axis
  · rcases hN : st.options.dragPlaneNormal with _ | n <;> simp [hA, hN]
  · simp [hA]

/-- **C2.** `_moveDrag` with `options.dragAxis` set and a successful plane
pick: the drag delta is the normalized world drag axis scaled by
`dragLength = dot(pickedPoint - lastDragPosition, axis)` (hence collinear
with the axis), observers receive exactly that `dragLength` as
`dragDistance`, `_targetPosition` is incremented by exactly that delta, and
`lastDragPosition` is then set to the picked point. -/
theorem moveDrag_axis_projection (st : DragState) (ray : Ray3) (axis : Vec3)
    (hax : st.options.dragAxis = some axis) (pickedPoint : Vec3)
    (hpick : pickWithRayOnDragPlane st (some ray) = some pickedPoint)
    (worldAxis : Vec3)
    (hwa : worldAxis = Vec3.normalize (if st.useObjectOrientationForDragging then
        Mat3.transformCoordinates axis st.nodeRotation else axis))
    (dragLength : ℝ)
    (hdl : dragLength = Vec3.dot (Vec3.sub pickedPoint st.lastDragPosition) worldAxis) :
    (moveDrag st ray).1.targetPosition =
      Vec3.add st.targetPosition (Vec3.smul dragLength worldAxis) ∧
    (moveDrag st ray).1.lastDragPosition = pickedPoint ∧
    ∃ ev, (moveDrag st ray).2 = some ev ∧ ev.dragDistance = dragLength ∧
      ev.delta = Vec3.smul dragLength worldAxis ∧ ev.dragPlanePoint = pickedPoint := by
  simp only [moveDrag, pickWithRayOnDragPlane_set_moving, hpick]
  cases hu : st.updateDragPlane with
  | false =>
    simp [hu, hax, hwa, hdl]
  | true =>
    simp [hu, hax, hwa, hdl, updateDragPlanePosition_options,
      updateDragPlanePosition_useObjectOrientation, updateDragPlanePosition_nodeRotation,
      updateDragPlanePosition_lastDragPosition, updateDragPlanePosition_targetPosition]

/-- Witness for C2: dragging along the world `x` axis with a pick hitting
`(0,0,5)` from `(0,0,0)` gives drag length `0`; the last drag position is
set to the picked point and the observers see drag distance `0`. -/
theorem moveDrag_axis_projection_witness :
    (moveDrag { sampleDragState with options := ⟨some ⟨1, 0, 0⟩, Option.none⟩ }
        ⟨⟨0, 0, 0⟩, ⟨0, 0, 1⟩⟩).1.lastDragPosition =
      Vec3.add ⟨0, 0, 0⟩ (Vec3.smul 5 ⟨0, 0, 1⟩) ∧
    ∃ ev, (moveDrag { sampleDragState with options := ⟨some ⟨1, 0, 0⟩, Option.none⟩ }
        ⟨⟨0, 0, 0⟩, ⟨0, 0, 1⟩⟩).2 = some ev ∧ ev.dragDistance = 0 := by
  have hnorm : Vec3.normalize ⟨1, 0, 0⟩ = (⟨1, 0, 0⟩ : Vec3) := by
    unfold Vec3.normalize Vec3.length
    rw [show (1 : ℝ) * 1 + 0 * 0 + 0 * 0 = 1 by norm_num, Real.sqrt_one]
    norm_num [Vec3.smul]
  have hpick : pickWithRayOnDragPlane
      { sampleDragState with options := ⟨some ⟨1, 0, 0⟩, Option.none⟩ }
      (some ⟨⟨0, 0, 0⟩, ⟨0, 0, 1⟩⟩) = some (Vec3.add ⟨0, 0, 0⟩ (Vec3.smul 5 ⟨0, 0, 1⟩)) := by
    simp only [pickWithRayOnDragPlane]
    rw [if_neg (by simp [sampleDragState]), if_neg (by norm_num [Vec3.dot, Epsilon, sampleDragState]),
      if_neg (by norm_num [Vec3.dot, Vec3.sub, sampleDragState])]
    congr 2
    norm_num [Vec3.dot, Vec3.sub, sampleDragState]
  have hwa : (⟨1, 0, 0⟩ : Vec3) = Vec3.normalize
      (if ({ sampleDragState with options := ⟨some ⟨1, 0, 0⟩, Option.none⟩ } :
        DragState).useObjectOrientationForDragging then
        Mat3.transformCoordinates ⟨1, 0, 0⟩
          ({ sampleDragState with options := ⟨some ⟨1, 0, 0⟩, Option.none⟩ } :
            DragState).nodeRotation
      else ⟨1, 0, 0⟩) := by
    simp [sampleDragState, hnorm]
  have hdl : (0 : ℝ) = Vec3.dot (Vec3.sub (Vec3.add ⟨0, 0, 0⟩ (Vec3.smul 5 ⟨0, 0, 1⟩))
      ({ sampleDragState with options := ⟨some ⟨1, 0, 0⟩, Option.none⟩ } :
        DragState).lastDragPosition) ⟨1, 0, 0⟩ := by
    norm_num [Vec3.dot, Vec3.sub, Vec3.add, Vec3.smul, sampleDragState]
  obtain ⟨h1, h2, h3⟩ := moveDrag_axis_projection
    { sampleDragState with options := ⟨some ⟨1, 0, 0⟩, Option.none⟩ }
    ⟨⟨0, 0, 0⟩, ⟨0, 0, 1⟩⟩ ⟨1, 0, 0⟩ rfl
    (Vec3.add ⟨0, 0, 0⟩ (Vec3.smul 5 ⟨0, 0, 1⟩)) hpick ⟨1, 0, 0⟩ hwa 0 hdl
  obtain ⟨ev, he, hd, _, _⟩ := h3
  exact ⟨h2, ev, he, hd⟩

/-- **C8.** The `PointerDragBehavior` constructor throws exactly when both
`options.dragAxis` and `options.dragPlaneNormal` are provided; for options
specifying at most one drag mode (or no options object at all) construction
succeeds and stores the given options (or an empty object). -/
theorem pointerDragBehavior_constructor_throw_iff (options : Option DragOptions) :
    ((PointerDragBehavior.construct options).isOk = false ↔
      ∃ opts, options = some opts ∧ opts.dragAxis.isSome ∧ opts.dragPlaneNormal.isSome) ∧
    ((PointerDragBehavior.construct options).isOk = true →
      PointerDragBehavior.construct options =
        Except.ok (options.getD ⟨Option.none, Option.none⟩)) := by
  cases options with
  | none =>
    exact ⟨by simp [PointerDragBehavior.construct, Except.isOk, Except.toBool], fun _ => rfl⟩
  | some opts =>
    obtain ⟨da, dn⟩ := opts
    cases da <;> cases dn <;> constructor <;>
      simp [PointerDragBehavior.construct, Except.isOk, Except.toBool]

/-- Witness for C8: both modes set throws; a single mode is stored as-is. -/
theorem pointerDragBehavior_constructor_throw_iff_witness :
    (PointerDragBehavior.construct (some ⟨some ⟨1, 0, 0⟩, some ⟨0, 1, 0⟩⟩)).isOk = false ∧
    PointerDragBehavior.construct (some ⟨some ⟨1, 0, 0⟩, Option.none⟩) =
      Except.ok ((some (⟨some ⟨1, 0, 0⟩, Option.none⟩ : DragOptions)).getD
        ⟨Option.none, Option.none⟩) := by
  constructor
  · exact (pointerDragBehavior_constructor_throw_iff _).1.mpr ⟨_, rfl, rfl, rfl⟩
  · exact (pointerDragBehavior_constructor_throw_iff _).2 rfl

/-! ## Theorems: thin instances -/

/-- Total reads agree with indexed reads within bounds. -/
theorem getD_eq_getElem (d : Array ℚ) (i : ℕ) (h : i < d.size) : d.getD i 0 = d[i] := by
  simp [Array.getD, h]

/-- The doubling loop is the identity when the current size suffices. -/
theorem growSize_of_le (cur target : ℕ) (h : target ≤ cur) : growSize cur target = cur := by
  unfold growSize
  rw [if_neg (not_lt.mpr h)]

/-- One iteration of the doubling loop. -/
theorem growSize_step (cur target : ℕ) (h : cur < target) (h0 : cur ≠ 0) :
    growSize cur target = growSize (cur * 2) target := by
  conv_lhs => unfold growSize
  rw [if_pos h, dif_neg h0]

/-- Fuel-indexed characterisation of the doubling loop: starting from a
positive size it returns the first power-of-two multiple of the current size
that reaches the target. -/
theorem growSize_pow_aux (target : ℕ) :
    ∀ fuel cur, 0 < cur → target - cur ≤ fuel →
      ∃ k, growSize cur target = cur * 2 ^ k ∧ target ≤ cur * 2 ^ k ∧
        ∀ j < k, cur * 2 ^ j < target := by
  intro fuel
  induction fuel with
  | zero =>
    intro cur hpos hle
    have h : target ≤ cur := by omega
    exact ⟨0, by rw [growSize_of_le cur target h]; ring,
      by simpa using h, fun j hj => absurd hj (Nat.not_lt_zero j)⟩
  | succ fl ih =>
    intro cur hpos hle
    by_cases h : cur < target
    · obtain ⟨k, h1, h2, h3⟩ := ih (cur * 2) (by omega) (by omega)
      refine ⟨k + 1, ?_, ?_, ?_⟩
      · rw [growSize_step cur target h (by omega), h1]; ring
      · calc target ≤ cur * 2 * 2 ^ k := h2
          _ = cur * 2 ^ (k + 1) := by ring
      · intro j hj
        cases j with
        | zero => simpa using h
        | succ j2 =>
          calc cur * 2 ^ (j2 + 1) = cur * 2 * 2 ^ j2 := by ring
            _ < target := h3 j2 (by omega)
    · have hle2 : target ≤ cur := by omega
      exact ⟨0, by rw [growSize_of_le cur target hle2]; ring,
        by simpa using hle2, fun j hj => absurd hj (Nat.not_lt_zero j)⟩

/-- The doubling loop from a positive size: the result is the current size
times the least power of two reaching the target. -/
theorem growSize_pow (cur target : ℕ) (hpos : 0 < cur) :
    ∃ k, growSize cur target = cur * 2 ^ k ∧ target ≤ cur * 2 ^ k ∧
      ∀ j < k, cur * 2 ^ j < target :=
  growSize_pow_aux target (target - cur) cur hpos le_rfl

/-- The doubling loop never shrinks a positive size. -/
theorem le_growSize (cur target : ℕ) (hpos : 0 < cur) : cur ≤ growSize cur target := by
  obtain ⟨k, h1, _, _⟩ := growSize_pow cur target hpos
  rw [h1]
  exact Nat.le_mul_of_pos_right cur (Nat.pos_pow_of_pos k (by omega))

/-- The doubling loop reaches the target from a positive size. -/
theorem target_le_growSize (cur target : ℕ) (hpos : 0 < cur) :
    target ≤ growSize cur target := by
  obtain ⟨k, h1, h2, _⟩ := growSize_pow cur target hpos
  rw [h1]
  exact h2

/-- The matrix write loop preserves the array size. -/
theorem writeMatrixAt_size (d : Array ℚ) (off : ℕ) (mat : Array ℚ) :
    (writeMatrixAt d off mat).size = d.size := by
  unfold writeMatrixAt
  exact Array.size_ofFn _

/-- Pointwise description of the matrix write loop. -/
theorem writeMatrixAt_getD (d : Array ℚ) (off : ℕ) (mat : Array ℚ) (k : ℕ)
    (hk : k < d.size) :
    (writeMatrixAt d off mat).getD k 0 =
      if off ≤ k ∧ k < off + 16 then mat.getD (k - off) 0 else d.getD k 0 := by
  have hk2 : k < (writeMatrixAt d off mat).size := by rw [writeMatrixAt_size]; exact hk
  rw [getD_eq_getElem _ _ hk2, getD_eq_getElem d k hk]
  simp only [writeMatrixAt, Array.getElem_ofFn]
  split <;> rfl

/-- Appending zero padding preserves the reachable prefix. -/
theorem append_pad_getD (d : Array ℚ) (ns i : ℕ) (hi : i < d.size) :
    (d ++ Array.mkArray (ns - d.size) (0 : ℚ)).getD i 0 = d.getD i 0 := by
  have h1 : i < (d ++ Array.mkArray (ns - d.size) (0 : ℚ)).size := by
    rw [Array.size_append]; omega
  rw [getD_eq_getElem _ _ h1, getD_eq_getElem d i hi]
  exact Array.getElem_append_left hi

/-- Appending zero padding up to a size at least the current one yields an
array of exactly the requested size. -/
theorem append_pad_size (d : Array ℚ) (ns : ℕ) (h : d.size ≤ ns) :
    (d ++ Array.mkArray (ns - d.size) (0 : ℚ)).size = ns := by
  rw [Array.size_append, Array.size_mkArray]
  omega

/-- `thinInstanceSetMatrixAt` in its success case, as a record equation. -/
theorem thinInstanceSetMatrixAt_success (m : ThinMesh) (index : ℕ) (mat : Array ℚ)
    (refresh : Bool) (d : Array ℚ) (hd : m.thinInstanceDataStorage.matrixData = some d)
    (hidx : index < m.thinInstanceDataStorage.instancesCount) :
    thinInstanceSetMatrixAt m index mat refresh =
      (true, { m with thinInstanceDataStorage := { m.thinInstanceDataStorage with
        matrixData := some (writeMatrixAt d (index * 16) mat),
        worldMatrices := match m.thinInstanceDataStorage.worldMatrices with
          | Option.none => Option.none
          | some ws => some (fun n => if n = index then mat else ws n) } }) := by
  unfold thinInstanceSetMatrixAt
  rw [hd]
  simp [not_le.mpr hidx]

/-- **C10.** `Mesh.thinInstanceSetMatrixAt` is total and atomic on failure:
without matrix data or with `index >= instancesCount` it returns `false` and
changes nothing; otherwise it writes exactly the 16 floats of the matrix at
float offset `index * 16`, updates the world-matrix cache at that index when
the cache exists, leaves every other entry and the instance count unchanged,
and returns `true`. -/
theorem thinInstanceSetMatrixAt_total_atomic (m : ThinMesh) (index : ℕ)
    (mat : Array ℚ) (refresh : Bool) :
    ((m.thinInstanceDataStorage.matrixData = Option.none ∨
        m.thinInstanceDataStorage.instancesCount ≤ index) →
      thinInstanceSetMatrixAt m index mat refresh = (false, m)) ∧
    (∀ d, m.thinInstanceDataStorage.matrixData = some d →
      index < m.thinInstanceDataStorage.instancesCount →
      m.thinInstanceDataStorage.instancesCount * 16 ≤ d.size →
      (thinInstanceSetMatrixAt m index mat refresh).1 = true ∧
      ∃ d2, (thinInstanceSetMatrixAt m index mat refresh).2.thinInstanceDataStorage.matrixData =
          some d2 ∧
        d2.size = d.size ∧
        (∀ j, j < 16 → d2.getD (index * 16 + j) 0 = mat.getD j 0) ∧
        (∀ k, k < d.size → k < index * 16 ∨ index * 16 + 16 ≤ k → d2.getD k 0 = d.getD k 0) ∧
        (thinInstanceSetMatrixAt m index mat refresh).2.thinInstanceDataStorage.instancesCount =
          m.thinInstanceDataStorage.instancesCount ∧
        (m.thinInstanceDataStorage.worldMatrices = Option.none →
          (thinInstanceSetMatrixAt m index mat refresh).2.thinInstanceDataStorage.worldMatrices =
            Option.none) ∧
        (∀ ws, m.thinInstanceDataStorage.worldMatrices = some ws →
          (thinInstanceSetMatrixAt m index mat refresh).2.thinInstanceDataStorage.worldMatrices =
            some (fun n => if n = index then mat else ws n))) := by
  constructor
  · intro hfail
    unfold thinInstanceSetMatrixAt
    rcases hfail with hnone | hge
    · rw [hnone]
    · cases hd : m.thinInstanceDataStorage.matrixData with
      | none => rfl
      | some d => simp [hge]
  · intro d hd hidx hinv
    rw [thinInstanceSetMatrixAt_success m index mat refresh d hd hidx]
    have hbound : index * 16 + 16 ≤ d.size := by
      have : (index + 1) * 16 ≤ m.thinInstanceDataStorage.instancesCount * 16 := by
        exact Nat.mul_le_mul_right 16 hidx
      omega
    refine ⟨rfl, writeMatrixAt d (index * 16) mat, rfl, writeMatrixAt_size d _ mat, ?_, ?_, rfl, ?_, ?_⟩
    · intro j hj
      rw [writeMatrixAt_getD d _ mat _ (by omega)]
      rw [if_pos ⟨Nat.le_add_right _ _, by omega⟩]
      congr 1
      omega
    · intro k hk hout
      rw [writeMatrixAt_getD d _ mat _ hk]
      rw [if_neg (by omega)]
    · intro hn
      simp [hn]
    · intro ws hws
      simp [hws]

/-- Witness for C10: writing matrix index `0` of the sample mesh succeeds and
stores float `j` of the matrix at offset `j`. -/
theorem thinInstanceSetMatrixAt_total_atomic_witness :
    (thinInstanceSetMatrixAt sampleThinMesh 0 (Array.mkArray 16 2) true).1 = true ∧
    ∃ d2, (thinInstanceSetMatrixAt sampleThinMesh 0
        (Array.mkArray 16 2) true).2.thinInstanceDataStorage.matrixData = some d2 ∧
      d2.getD 0 0 = (Array.mkArray 16 2).getD 0 0 := by
  obtain ⟨h1, d2, h2, _, h4, _⟩ :=
    (thinInstanceSetMatrixAt_total_atomic sampleThinMesh 0 (Array.mkArray 16 2) true).2
      (Array.mkArray 16 0) rfl (by simp [sampleThinMesh]) (by simp [sampleThinMesh])
  exact ⟨h1, d2, h2, by simpa using h4 0 (by norm_num)⟩

/-- `_thinInstanceUpdateBufferSize` only depends on the kind through its
color-renamed form. -/
theorem thinInstanceUpdateBufferSize_congr_kind (m : ThinMesh) (k1 k2 : String) (n : ℕ)
    (h : renameColorKind k1 = renameColorKind k2) :
    thinInstanceUpdateBufferSize m k1 n = thinInstanceUpdateBufferSize m k2 n := by
  unfold thinInstanceUpdateBufferSize
  rw [h]

/-- `_thinInstanceUpdateBufferSize` on the matrix kind, with the concrete
string tests evaluated away. -/
theorem thinInstanceUpdateBufferSize_matrix_eq (m : ThinMesh) (n : ℕ) :
    thinInstanceUpdateBufferSize m "matrix" n =
      (if m.thinInstanceDataStorage.matrixData.isNone ∨
          m.thinInstanceDataStorage.matrixBufferSize ≠
            growSize m.thinInstanceDataStorage.matrixBufferSize
              ((m.thinInstanceDataStorage.instancesCount + n) * 16) then
        { m with thinInstanceDataStorage := { m.thinInstanceDataStorage with
            matrixData := some (match m.thinInstanceDataStorage.matrixData with
              | Option.none => Array.mkArray
                  (growSize m.thinInstanceDataStorage.matrixBufferSize
                    ((m.thinInstanceDataStorage.instancesCount + n) * 16)) 0
              | some d => d ++ Array.mkArray
                  (growSize m.thinInstanceDataStorage.matrixBufferSize
                    ((m.thinInstanceDataStorage.instancesCount + n) * 16) - d.size) 0),
            matrixBufferSize := growSize m.thinInstanceDataStorage.matrixBufferSize
              ((m.thinInstanceDataStorage.instancesCount + n) * 16),
            matrixBuffer := true,
            previousMatrixBuffer :=
              if m.needsPreviousWorldMatrices &&
                  m.thinInstanceDataStorage.previousMatrixData.isNone then true
              else m.thinInstanceDataStorage.previousMatrixBuffer } }
      else m) := rfl

/-- The matrix branch of `_thinInstanceUpdateBufferSize`: the recorded size
becomes `growSize`, nothing happens when data exists and the size is already
right, and otherwise a fresh array of the grown size is allocated with the
old contents copied to the front. -/
theorem updateBufferSize_matrix_case (m : ThinMesh) (n : ℕ)
    (hpos : 0 < m.thinInstanceDataStorage.matrixBufferSize)
    (hszinv : ∀ d, m.thinInstanceDataStorage.matrixData = some d →
      d.size = m.thinInstanceDataStorage.matrixBufferSize) :
    kindCurrentSize (thinInstanceUpdateBufferSize m "matrix" n) "matrix" =
      growSize m.thinInstanceDataStorage.matrixBufferSize
        ((m.thinInstanceDataStorage.instancesCount + n) * 16) ∧
    ((m.thinInstanceDataStorage.matrixData).isSome →
      m.thinInstanceDataStorage.matrixBufferSize =
        growSize m.thinInstanceDataStorage.matrixBufferSize
          ((m.thinInstanceDataStorage.instancesCount + n) * 16) →
      thinInstanceUpdateBufferSize m "matrix" n = m) ∧
    (m.thinInstanceDataStorage.matrixData = Option.none ∨
        m.thinInstanceDataStorage.matrixBufferSize ≠
          growSize m.thinInstanceDataStorage.matrixBufferSize
            ((m.thinInstanceDataStorage.instancesCount + n) * 16) →
      ∃ d2, kindData (thinInstanceUpdateBufferSize m "matrix" n) "matrix" = some d2 ∧
        d2.size = growSize m.thinInstanceDataStorage.matrixBufferSize
          ((m.thinInstanceDataStorage.instancesCount + n) * 16) ∧
        ∀ d, m.thinInstanceDataStorage.matrixData = some d →
          ∀ i, i < d.size → d2.getD i 0 = d.getD i 0) := by
  rw [thinInstanceUpdateBufferSize_matrix_eq]
  generalize hGS : growSize m.thinInstanceDataStorage.matrixBufferSize
      ((m.thinInstanceDataStorage.instancesCount + n) * 16) = GS
  refine ⟨?_, ?_, ?_⟩
  · by_cases hcond : m.thinInstanceDataStorage.matrixData.isNone = true ∨
        m.thinInstanceDataStorage.matrixBufferSize ≠ GS
    · rw [if_pos hcond]; simp [kindCurrentSize]
    · rw [if_neg hcond]
      push_neg at hcond
      simpa [kindCurrentSize] using hcond.2
  · intro hds hgse
    rw [if_neg]
    rintro (h1 | h2)
    · obtain ⟨d, hd⟩ := Option.isSome_iff_exists.mp hds
      rw [hd] at h1
      simp at h1
    · exact h2 hgse
  · intro hcond2
    cases hdm : m.thinInstanceDataStorage.matrixData with
    | none =>
      rw [if_pos (Or.inl (show (Option.none : Option (Array ℚ)).isNone = true from rfl))]
      refine ⟨Array.mkArray GS 0, ?_, by simp, ?_⟩
      · simp [kindData, hdm]
      · intro d hd
        exact Option.noConfusion hd
    | some d =>
      have hds : d.size = m.thinInstanceDataStorage.matrixBufferSize := hszinv d hdm
      have hcle : m.thinInstanceDataStorage.matrixBufferSize ≤ GS := by
        rw [← hGS]; exact le_growSize _ _ hpos
      have hne : m.thinInstanceDataStorage.matrixBufferSize ≠ GS := by
        rcases hcond2 with h1 | h2
        · rw [hdm] at h1; exact Option.noConfusion h1
        · exact h2
      rw [if_pos (Or.inr hne)]
      refine ⟨d ++ Array.mkArray (GS - d.size) 0, ?_, ?_, ?_⟩
      · simp [kindData, hdm]
      · exact append_pad_size d GS (by omega)
      · intro d2 hd2 i hi
        injection hd2 with h
        subst h
        exact append_pad_getD d GS i hi

/-- The user-kind branch of `_thinInstanceUpdateBufferSize`, written out with
the kind tests discharged. -/
theorem updateBufferSize_user_eq (m : ThinMesh) (kind : String) (n : ℕ)
    (u : UserThinInstanceBuffersStorage)
    (hm : ¬(renameColorKind kind = "matrix")) (hu : m.userStorage = some u)
    (hstr0 : ¬(u.strides (renameColorKind kind) = 0)) :
    thinInstanceUpdateBufferSize m kind n =
      (if (u.data (renameColorKind kind)).isNone ∨ u.sizes (renameColorKind kind) ≠
          growSize (u.sizes (renameColorKind kind))
            ((m.thinInstanceDataStorage.instancesCount + n) *
              u.strides (renameColorKind kind)) then
        { m with userStorage := some { u with
            data := fun k => if k = renameColorKind kind then
                some (match u.data (renameColorKind kind) with
                  | Option.none => Array.mkArray
                      (growSize (u.sizes (renameColorKind kind))
                        ((m.thinInstanceDataStorage.instancesCount + n) *
                          u.strides (renameColorKind kind))) 0
                  | some d => d ++ Array.mkArray
                      (growSize (u.sizes (renameColorKind kind))
                        ((m.thinInstanceDataStorage.instancesCount + n) *
                          u.strides (renameColorKind kind)) - d.size) 0)
              else u.data k,
            sizes := fun k => if k = renameColorKind kind then
                growSize (u.sizes (renameColorKind kind))
                  ((m.thinInstanceDataStorage.instancesCount + n) *
                    u.strides (renameColorKind kind))
              else u.sizes k } }
      else m) := by
  simp only [thinInstanceUpdateBufferSize, hu]
  rw [if_neg hm, if_neg hstr0]

/-- The user-kind branch of `_thinInstanceUpdateBufferSize`: the recorded
size becomes `growSize`, nothing happens when data exists at the right size,
and otherwise a fresh front-copied array of the grown size is installed. -/
theorem updateBufferSize_user_case (m : ThinMesh) (kind : String) (n : ℕ)
    (u : UserThinInstanceBuffersStorage)
    (hm : ¬(renameColorKind kind = "matrix")) (hu : m.userStorage = some u)
    (hstr0 : ¬(u.strides (renameColorKind kind) = 0))
    (hpos : 0 < u.sizes (renameColorKind kind))
    (hszinv : ∀ d, u.data (renameColorKind kind) = some d →
      d.size = u.sizes (renameColorKind kind)) :
    kindCurrentSize (thinInstanceUpdateBufferSize m kind n) (renameColorKind kind) =
      growSize (u.sizes (renameColorKind kind))
        ((m.thinInstanceDataStorage.instancesCount + n) * u.strides (renameColorKind kind)) ∧
    ((u.data (renameColorKind kind)).isSome →
      u.sizes (renameColorKind kind) = growSize (u.sizes (renameColorKind kind))
        ((m.thinInstanceDataStorage.instancesCount + n) * u.strides (renameColorKind kind)) →
      thinInstanceUpdateBufferSize m kind n = m) ∧
    (u.data (renameColorKind kind) = Option.none ∨
        u.sizes (renameColorKind kind) ≠ growSize (u.sizes (renameColorKind kind))
          ((m.thinInstanceDataStorage.instancesCount + n) *
            u.strides (renameColorKind kind)) →
      ∃ d2, kindData (thinInstanceUpdateBufferSize m kind n) (renameColorKind kind) =
          some d2 ∧
        d2.size = growSize (u.sizes (renameColorKind kind))
          ((m.thinInstanceDataStorage.instancesCount + n) *
            u.strides (renameColorKind kind)) ∧
        ∀ d, u.data (renameColorKind kind) = some d →
          ∀ i, i < d.size → d2.getD i 0 = d.getD i 0) := by
  rw [updateBufferSize_user_eq m kind n u hm hu hstr0]
  generalize hGS : growSize (u.sizes (renameColorKind kind))
      ((m.thinInstanceDataStorage.instancesCount + n) *
        u.strides (renameColorKind kind)) = GS
  refine ⟨?_, ?_, ?_⟩
  · by_cases hcond : (u.data (renameColorKind kind)).isNone = true ∨
        u.sizes (renameColorKind kind) ≠ GS
    · rw [if_pos hcond]
      simp [kindCurrentSize, hm]
    · rw [if_neg hcond]
      push_neg at hcond
      simpa [kindCurrentSize, hm, hu] using hcond.2
  · intro hds hgse
    rw [if_neg]
    rintro (h1 | h2)
    · obtain ⟨d, hd⟩ := Option.isSome_iff_exists.mp hds
      rw [hd] at h1
      simp at h1
    · exact h2 hgse
  · intro hcond2
    cases hdm : u.data (renameColorKind kind) with
    | none =>
      rw [if_pos (Or.inl (show (Option.none : Option (Array ℚ)).isNone = true from rfl))]
      refine ⟨Array.mkArray GS 0, ?_, by simp, ?_⟩
      · simp [kindData, hm]
      · intro d hd
        exact Option.noConfusion hd
    | some d =>
      have hds2 : d.size = u.sizes (renameColorKind kind) := hszinv d hdm
      have hcle : u.sizes (renameColorKind kind) ≤ GS := by
        rw [← hGS]; exact le_growSize _ _ hpos
      have hne : u.sizes (renameColorKind kind) ≠ GS := by
        rcases hcond2 with h1 | h2
        · rw [hdm] at h1; exact Option.noConfusion h1
        · exact h2
      rw [if_pos (Or.inr hne)]
      refine ⟨d ++ Array.mkArray (GS - d.size) 0, ?_, ?_, ?_⟩
      · simp [kindData, hm]
      · exact append_pad_size d GS (by omega)
      · intro d2 hd2 i hi
        injection hd2 with h
        subst h
        exact append_pad_getD d GS i hi

/-- **C5.** `Mesh._thinInstanceUpdateBufferSize` grows the backing array
geometrically: for every kind, starting from a positive current size it
doubles the size until it is at least `(instancesCount + numInstances) *
stride` (stride `16` for `"matrix"`), allocates a new array of that size
only when the size changed or no data existed, copying the old contents
unchanged into the front; when the current size already suffices and data
exists the buffer is left untouched. -/
theorem thinInstanceUpdateBufferSize_geometric (m : ThinMesh) (kind kr : String) (n : ℕ)
    (hkr : kr = renameColorKind kind) (cur stride : ℕ)
    (hcur : cur = kindCurrentSize m kr) (hstr : stride = kindStride m kr)
    (hstride0 : stride ≠ 0) (hpos : 0 < cur)
    (hszinv : ∀ d, kindData m kr = some d → d.size = cur) :
    (∃ k2, kindCurrentSize (thinInstanceUpdateBufferSize m kind n) kr = cur * 2 ^ k2 ∧
      (m.thinInstanceDataStorage.instancesCount + n) * stride ≤ cur * 2 ^ k2 ∧
      ∀ j < k2, cur * 2 ^ j < (m.thinInstanceDataStorage.instancesCount + n) * stride) ∧
    ((kindData m kr).isSome →
      cur = growSize cur ((m.thinInstanceDataStorage.instancesCount + n) * stride) →
      thinInstanceUpdateBufferSize m kind n = m) ∧
    (kindData m kr = Option.none ∨
        cur ≠ growSize cur ((m.thinInstanceDataStorage.instancesCount + n) * stride) →
      ∃ d2, kindData (thinInstanceUpdateBufferSize m kind n) kr = some d2 ∧
        d2.size = growSize cur ((m.thinInstanceDataStorage.instancesCount + n) * stride) ∧
        ∀ d, kindData m kr = some d → ∀ i, i < d.size → d2.getD i 0 = d.getD i 0) := by
  subst hkr
  by_cases hm : renameColorKind kind = "matrix"
  · rw [hm] at hcur hstr hszinv ⊢
    rw [thinInstanceUpdateBufferSize_congr_kind m kind "matrix" n (by rw [hm]; rfl)] at *
    simp [kindCurrentSize] at hcur
    simp [kindStride] at hstr
    simp [kindData] at hszinv
    subst hcur
    subst hstr
    obtain ⟨g1, g2, g3⟩ := updateBufferSize_matrix_case m n hpos hszinv
    refine ⟨?_, ?_, ?_⟩
    · obtain ⟨k2, hp1, hp2, hp3⟩ := growSize_pow m.thinInstanceDataStorage.matrixBufferSize
        ((m.thinInstanceDataStorage.instancesCount + n) * 16) hpos
      exact ⟨k2, by rw [g1, hp1], hp2, hp3⟩
    · intro hds hgse
      exact g2 (by simpa [kindData] using hds) hgse
    · intro hc
      obtain ⟨d2, h1, h2, h3⟩ := g3 (by simpa [kindData] using hc)
      exact ⟨d2, h1, h2, fun d hd i hi => h3 d (by simpa [kindData] using hd) i hi⟩
  · have hu2 : ∃ u, m.userStorage = some u := by
      rcases hus : m.userStorage with _ | u
      · exfalso
        apply hstride0
        rw [hstr]
        simp [kindStride, hm, hus]
      · exact ⟨u, rfl⟩
    obtain ⟨u, hu⟩ := hu2
    have hstr2 : stride = u.strides (renameColorKind kind) := by
      rw [hstr]; simp [kindStride, hm, hu]
    have hcur2 : cur = u.sizes (renameColorKind kind) := by
      rw [hcur]; simp [kindCurrentSize, hm, hu]
    have hstr0 : ¬(u.strides (renameColorKind kind) = 0) := by
      rw [← hstr2]; exact hstride0
    subst hcur2
    subst hstr2
    have hszinv2 : ∀ d, u.data (renameColorKind kind) = some d →
        d.size = u.sizes (renameColorKind kind) := by
      intro d hd
      exact hszinv d (by simpa [kindData, hm, hu] using hd)
    obtain ⟨g1, g2, g3⟩ := updateBufferSize_user_case m kind n u hm hu hstr0 hpos hszinv2
    refine ⟨?_, ?_, ?_⟩
    · obtain ⟨k2, hp1, hp2, hp3⟩ := growSize_pow (u.sizes (renameColorKind kind))
        ((m.thinInstanceDataStorage.instancesCount + n) *
          u.strides (renameColorKind kind)) hpos
      exact ⟨k2, by rw [g1, hp1], hp2, hp3⟩
    · intro hds hgse
      exact g2 (by simpa [kindData, hm, hu] using hds) hgse
    · intro hc
      obtain ⟨d2, h1, h2, h3⟩ := g3 (by simpa [kindData, hm, hu] using hc)
      exact ⟨d2, h1, h2, fun d hd i hi => h3 d (by simpa [kindData, hm, hu] using hd) i hi⟩

/-- Witness for C5: on the sample mesh (size 16, one instance) making room
for one more matrix doubles the buffer to 32 floats. -/
theorem thinInstanceUpdateBufferSize_geometric_witness :
    ∃ d2, kindData (thinInstanceUpdateBufferSize sampleThinMesh "matrix" 1) "matrix" =
        some d2 ∧ d2.size = 32 := by
  have hgs : growSize 16 32 = 32 := by
    rw [growSize_step 16 32 (by norm_num) (by norm_num), growSize_of_le 32 32 le_rfl]
  have hszinv : ∀ d, kindData sampleThinMesh "matrix" = some d → d.size = 16 := by
    intro d hd
    have h0 : kindData sampleThinMesh "matrix" = some (Array.mkArray 16 0) := rfl
    rw [h0] at hd
    rw [← Option.some.inj hd]
    simp
  obtain ⟨g1, g2, g3⟩ := thinInstanceUpdateBufferSize_geometric sampleThinMesh "matrix"
    "matrix" 1 rfl 16 16 rfl rfl (by norm_num) (by norm_num) hszinv
  obtain ⟨d2, h1, h2, _⟩ := g3 (Or.inr (by
    rw [show (sampleThinMesh.thinInstanceDataStorage.instancesCount + 1) * 16 = 32 from rfl,
      hgs]
    norm_num))
  refine ⟨d2, h1, ?_⟩
  rw [h2, show (sampleThinMesh.thinInstanceDataStorage.instancesCount + 1) * 16 = 32 from rfl,
    hgs]

/-- The matrix-kind buffer-size update never changes the instance count. -/
theorem updateBufferSize_matrix_count (m : ThinMesh) (n : ℕ) :
    (thinInstanceUpdateBufferSize m "matrix" n).thinInstanceDataStorage.instancesCount =
      m.thinInstanceDataStorage.instancesCount := by
  rw [thinInstanceUpdateBufferSize_matrix_eq]
  split <;> rfl

/-- After the matrix-kind buffer-size update there is always matrix data with
room for `instancesCount + n` matrices. -/
theorem updateBufferSize_matrix_ensures (m : ThinMesh) (n : ℕ)
    (hpos : 0 < m.thinInstanceDataStorage.matrixBufferSize)
    (hszinv : ∀ d, m.thinInstanceDataStorage.matrixData = some d →
      d.size = m.thinInstanceDataStorage.matrixBufferSize) :
    ∃ d2, (thinInstanceUpdateBufferSize m "matrix" n).thinInstanceDataStorage.matrixData =
        some d2 ∧
      (m.thinInstanceDataStorage.instancesCount + n) * 16 ≤ d2.size := by
  obtain ⟨g1, g2, g3⟩ := updateBufferSize_matrix_case m n hpos hszinv
  have htarget := target_le_growSize m.thinInstanceDataStorage.matrixBufferSize
    ((m.thinInstanceDataStorage.instancesCount + n) * 16) hpos
  by_cases hcond : m.thinInstanceDataStorage.matrixData = Option.none ∨
      m.thinInstanceDataStorage.matrixBufferSize ≠
        growSize m.thinInstanceDataStorage.matrixBufferSize
          ((m.thinInstanceDataStorage.instancesCount + n) * 16)
  · obtain ⟨d2, h1, h2, _⟩ := g3 hcond
    refine ⟨d2, by simpa [kindData] using h1, ?_⟩
    omega
  · push_neg at hcond
    obtain ⟨hdsome, hgse⟩ := hcond
    cases hdm : m.thinInstanceDataStorage.matrixData with
    | none => exact absurd hdm hdsome
    | some d =>
      rw [g2 (by rw [hdm]; rfl) hgse, hdm]
      exact ⟨d, rfl, by rw [hszinv d hdm]; omega⟩

/-- The loop body of `thinInstanceAdd`: matrices land at consecutive offsets
after the starting count, earlier data is untouched, and the instance count
rises by the number of matrices. -/
theorem thinInstanceAddLoop_spec (mats : List (Array ℚ)) :
    ∀ (refresh : Bool) (m : ThinMesh) (d : Array ℚ),
      m.thinInstanceDataStorage.matrixData = some d →
      (m.thinInstanceDataStorage.instancesCount + mats.length) * 16 ≤ d.size →
      ∃ d2, (thinInstanceAddLoop m mats refresh).thinInstanceDataStorage.matrixData =
          some d2 ∧
        d2.size = d.size ∧
        (thinInstanceAddLoop m mats refresh).thinInstanceDataStorage.instancesCount =
          m.thinInstanceDataStorage.instancesCount + mats.length ∧
        (∀ k, k < m.thinInstanceDataStorage.instancesCount * 16 →
          d2.getD k 0 = d.getD k 0) ∧
        (∀ i, (hi : i < mats.length) → ∀ j, j < 16 →
          d2.getD ((m.thinInstanceDataStorage.instancesCount + i) * 16 + j) 0 =
            (mats.get ⟨i, hi⟩).getD j 0) := by
  induction mats with
  | nil =>
    intro refresh m d hd hroom
    exact ⟨d, hd, rfl, by simp [thinInstanceAddLoop], fun k _ => rfl,
      fun i hi => absurd hi (by simp)⟩
  | cons mat rest ih =>
    intro refresh m d hd hroom
    set c := m.thinInstanceDataStorage.instancesCount with hc
    have hroom1 : (c + (rest.length + 1)) * 16 ≤ d.size := by
      simpa using hroom
    have hroom2 : c * 16 + 16 ≤ d.size := by omega
    have hm1d : ({ m with thinInstanceDataStorage :=
        { m.thinInstanceDataStorage with instancesCount := c + 1 } } :
          ThinMesh).thinInstanceDataStorage.matrixData = some d := hd
    have hwrite := thinInstanceSetMatrixAt_success
      { m with thinInstanceDataStorage :=
        { m.thinInstanceDataStorage with instancesCount := c + 1 } }
      c mat (rest.isEmpty && refresh) d hm1d (Nat.lt_succ_self c)
    have hstep : thinInstanceAddLoop m (mat :: rest) refresh =
        thinInstanceAddLoop ((thinInstanceSetMatrixAt
          { m with thinInstanceDataStorage :=
            { m.thinInstanceDataStorage with instancesCount := c + 1 } }
          c mat (rest.isEmpty && refresh)).2) rest refresh := rfl
    have ha : ((thinInstanceSetMatrixAt
        { m with thinInstanceDataStorage :=
          { m.thinInstanceDataStorage with instancesCount := c + 1 } }
        c mat (rest.isEmpty && refresh)).2).thinInstanceDataStorage.matrixData =
          some (writeMatrixAt d (c * 16) mat) := by
      rw [hwrite]
    have hb : ((thinInstanceSetMatrixAt
        { m with thinInstanceDataStorage :=
          { m.thinInstanceDataStorage with instancesCount := c + 1 } }
        c mat (rest.isEmpty && refresh)).2).thinInstanceDataStorage.instancesCount =
          c + 1 := by
      rw [hwrite]
    rw [hstep]
    obtain ⟨d2, h1, h2, h3, h4, h5⟩ := ih refresh _ _ ha
      (by rw [hb, writeMatrixAt_size]; omega)
    refine ⟨d2, h1, ?_, ?_, ?_, ?_⟩
    · rw [h2, writeMatrixAt_size]
    · rw [h3, hb]
      simp
      omega
    · intro k hk
      rw [h4 k (by rw [hb]; omega)]
      rw [writeMatrixAt_getD d _ mat k (by omega)]
      rw [if_neg (by omega)]
    · intro i hi j hj
      cases i with
      | zero =>
        have h40 := h4 (c * 16 + j) (by rw [hb]; omega)
        have hW := writeMatrixAt_getD d (c * 16) mat (c * 16 + j) (by omega)
        rw [if_pos ⟨Nat.le_add_right _ _, by omega⟩] at hW
        have goaleq : (c + 0) * 16 + j = c * 16 + j := by ring
        rw [goaleq, h40, hW]
        simp
      | succ i2 =>
        have hi2 : i2 < rest.length := by
          have := hi
          simp at this
          omega
        have h5x := h5 i2 hi2 j hj
        rw [hb] at h5x
        have harith : (c + 1 + i2) * 16 + j = (c + (i2 + 1)) * 16 + j := by ring
        rw [harith] at h5x
        rw [h5x]
        congr 1

/-- **C4.** For a mesh whose engine supports instanced arrays,
`Mesh.thinInstanceAdd` returns the value `_thinInstanceDataStorage.instancesCount`
held before the call; after adding `n` matrices the count has risen by
exactly `n` (by 1 for a single matrix, which the source handles as the
one-element case), and the `i`-th matrix is stored at float offset
`(returnedIndex + i) * 16` of the matrix data buffer.  Without
instanced-array support it returns `-1` and adds nothing. -/
theorem thinInstanceAdd_spec (m : ThinMesh) (mats : List (Array ℚ)) (refresh : Bool) :
    (m.instancedArrays = false → thinInstanceAdd m mats refresh = (-1, m)) ∧
    (m.instancedArrays = true →
      0 < m.thinInstanceDataStorage.matrixBufferSize →
      (∀ d, m.thinInstanceDataStorage.matrixData = some d →
        d.size = m.thinInstanceDataStorage.matrixBufferSize) →
      (thinInstanceAdd m mats refresh).1 =
        (m.thinInstanceDataStorage.instancesCount : ℤ) ∧
      (thinInstanceAdd m mats refresh).2.thinInstanceDataStorage.instancesCount =
        m.thinInstanceDataStorage.instancesCount + mats.length ∧
      ∃ d2, (thinInstanceAdd m mats refresh).2.thinInstanceDataStorage.matrixData =
          some d2 ∧
        ∀ i, (hi : i < mats.length) → ∀ j, j < 16 →
          d2.getD ((m.thinInstanceDataStorage.instancesCount + i) * 16 + j) 0 =
            (mats.get ⟨i, hi⟩).getD j 0) := by
  constructor
  · intro hno
    unfold thinInstanceAdd
    rw [hno]
    rfl
  · intro hyes hpos hszinv
    have heq : thinInstanceAdd m mats refresh =
        (((thinInstanceUpdateBufferSize m "matrix"
            mats.length).thinInstanceDataStorage.instancesCount : ℤ),
          thinInstanceAddLoop (thinInstanceUpdateBufferSize m "matrix" mats.length)
            mats refresh) := by
      unfold thinInstanceAdd
      rw [hyes]
      rfl
    obtain ⟨dE, hdE, hroomE⟩ := updateBufferSize_matrix_ensures m mats.length hpos hszinv
    have hcnt := updateBufferSize_matrix_count m mats.length
    obtain ⟨d2, h1, _, h3, _, h5⟩ := thinInstanceAddLoop_spec mats refresh _ dE hdE
      (by rw [hcnt]; exact hroomE)
    refine ⟨?_, ?_, d2, ?_, ?_⟩
    · rw [heq]
      show ((thinInstanceUpdateBufferSize m "matrix"
          mats.length).thinInstanceDataStorage.instancesCount : ℤ) =
        (m.thinInstanceDataStorage.instancesCount : ℤ)
      rw [hcnt]
    · rw [heq]
      show (thinInstanceAddLoop (thinInstanceUpdateBufferSize m "matrix" mats.length)
          mats refresh).thinInstanceDataStorage.instancesCount =
        m.thinInstanceDataStorage.instancesCount + mats.length
      rw [h3, hcnt]
    · rw [heq]
      exact h1
    · intro i hi j hj
      have h5x := h5 i hi j hj
      rw [hcnt] at h5x
      exact h5x

/-- Witness for C4: adding one matrix (all floats `2`) to the sample mesh
(count 1) returns index `1`, raises the count to `2` and stores the matrix
at float offset `16`. -/
theorem thinInstanceAdd_spec_witness :
    (thinInstanceAdd sampleThinMesh [Array.mkArray 16 2] true).1 = 1 ∧
    (thinInstanceAdd sampleThinMesh
      [Array.mkArray 16 2] true).2.thinInstanceDataStorage.instancesCount = 2 ∧
    ∃ d2, (thinInstanceAdd sampleThinMesh
        [Array.mkArray 16 2] true).2.thinInstanceDataStorage.matrixData = some d2 ∧
      d2.getD (1 * 16 + 0) 0 = (Array.mkArray 16 (2 : ℚ)).getD 0 0 := by
  have hszinv : ∀ d, sampleThinMesh.thinInstanceDataStorage.matrixData = some d →
      d.size = sampleThinMesh.thinInstanceDataStorage.matrixBufferSize := by
    intro d hd
    have h0 : sampleThinMesh.thinInstanceDataStorage.matrixData =
        some (Array.mkArray 16 0) := rfl
    rw [h0] at hd
    rw [← Option.some.inj hd]
    simp [sampleThinMesh]
  obtain ⟨hA, hB, d2, hC, hD⟩ :=
    (thinInstanceAdd_spec sampleThinMesh [Array.mkArray 16 2] true).2 rfl
      (by simp [sampleThinMesh]) hszinv
  refine ⟨hA.trans (by simp [sampleThinMesh]), hB.trans (by simp [sampleThinMesh]), d2, hC, ?_⟩
  exact hD 0 (by norm_num) 0 (by norm_num)

/-- **C9.** The `thinInstanceCount` setter never exceeds buffer capacity:
the count is updated to `v` exactly when `v` is at most
`matrixData.length / 16` (own or source-mesh matrix data); otherwise — in
particular when no matrix data exists and `v > 0` — the state is unchanged,
and the invariant `instancesCount * 16 <= matrixData.length` is preserved. -/
theorem thinInstanceCount_setter_capacity (m : ThinMesh) (v : ℕ) :
    (((v : ℚ) ≤ thinInstanceCapacity m) →
      setThinInstanceCount m v = { m with thinInstanceDataStorage :=
        { m.thinInstanceDataStorage with instancesCount := v } }) ∧
    (¬((v : ℚ) ≤ thinInstanceCapacity m) → setThinInstanceCount m v = m) ∧
    (∀ d, effectiveMatrixData m = some d → (v : ℚ) ≤ thinInstanceCapacity m →
      v * 16 ≤ d.size) ∧
    (effectiveMatrixData m = Option.none → 0 < v → setThinInstanceCount m v = m) ∧
    (∀ d, effectiveMatrixData m = some d →
      m.thinInstanceDataStorage.instancesCount * 16 ≤ d.size →
      (setThinInstanceCount m v).thinInstanceDataStorage.instancesCount * 16 ≤ d.size) := by
  have hcap : ∀ d, effectiveMatrixData m = some d → (v : ℚ) ≤ thinInstanceCapacity m →
      v * 16 ≤ d.size := by
    intro d hdm hle
    rw [thinInstanceCapacity, hdm] at hle
    rw [le_div_iff₀ (by norm_num : (0 : ℚ) < 16)] at hle
    exact_mod_cast hle
  refine ⟨?_, ?_, hcap, ?_, ?_⟩
  · intro h
    unfold setThinInstanceCount
    rw [if_pos h]
  · intro h
    unfold setThinInstanceCount
    rw [if_neg h]
  · intro hnone hv
    unfold setThinInstanceCount
    rw [if_neg]
    rw [thinInstanceCapacity, hnone]
    show ¬((v : ℚ) ≤ 0)
    exact fun hc => absurd (Nat.cast_nonpos.mp hc) (by omega)
  · intro d hdm hinv
    unfold setThinInstanceCount
    by_cases h : (v : ℚ) ≤ thinInstanceCapacity m
    · rw [if_pos h]
      exact hcap d hdm h
    · rw [if_neg h]
      exact hinv

/-- Witness for C9: on the sample mesh (capacity `16 / 16 = 1`), setting the
count to `1` keeps the invariant `instancesCount * 16 <= 16`. -/
theorem thinInstanceCount_setter_capacity_witness :
    (setThinInstanceCount sampleThinMesh 1).thinInstanceDataStorage.instancesCount * 16 ≤
      (Array.mkArray 16 (0 : ℚ)).size :=
  ((thinInstanceCount_setter_capacity sampleThinMesh 1).2.2.2.2)
    (Array.mkArray 16 0) rfl (by simp [sampleThinMesh])

/-! ## Theorems: WebXR hand tracking -/

/-- A controller is eligible exactly when its input source has a hand and a
handedness other than `"none"`. -/
theorem eligibleController_iff (c : Controller) :
    eligibleController c = true ↔ c.hasHand = true ∧ ¬(c.handedness = Handedness.none) := by
  simp [eligibleController]

/-- `_attachHand` on an eligible controller with joint meshes present, as a
record equation. -/
theorem attachHand_eligible_eq (st : HandTrackingState) (c : Controller)
    (hj : st.jointMeshes = true) (hh : c.hasHand = true)
    (hn : ¬(c.handedness = Handedness.none)) :
    attachHand st c =
      ({ st with
          attachedHands := fun id => if id = c.uniqueId then some ⟨c⟩
            else st.attachedHands id,
          trackingLeft := if c.handedness = Handedness.left then some ⟨c⟩
            else st.trackingLeft,
          trackingRight := if c.handedness = Handedness.right then some ⟨c⟩
            else st.trackingRight },
        [HandEvent.added ⟨c⟩]) := by
  unfold attachHand
  simp [hh, hj, hn]

/-- `_attachHand` on an ineligible controller does nothing. -/
theorem attachHand_ineligible (st : HandTrackingState) (c : Controller)
    (he : eligibleController c = false) : attachHand st c = (st, []) := by
  have he2 : c.hasHand = false ∨ c.handedness = Handedness.none := by
    by_cases h1 : c.hasHand = true
    · by_cases h2 : c.handedness = Handedness.none
      · exact Or.inr h2
      · exact absurd he (by simp [(eligibleController_iff c).mpr ⟨h1, h2⟩])
    · exact Or.inl (by simpa using h1)
  unfold attachHand
  rcases he2 with h | h <;> simp [h]

/-- `_attachHand` never changes whether the joint meshes exist. -/
theorem attachHand_jointMeshes (st : HandTrackingState) (c : Controller) :
    (attachHand st c).1.jointMeshes = st.jointMeshes := by
  unfold attachHand
  split <;> rfl

/-- `_attachHand` touches no `_attachedHands` key other than the
controller's. -/
theorem attachHand_other (st : HandTrackingState) (c : Controller) (id : String)
    (hne : id ≠ c.uniqueId) :
    (attachHand st c).1.attachedHands id = st.attachedHands id := by
  unfold attachHand
  split
  · rfl
  · simp [hne]

/-- The attach loop touches no `_attachedHands` key outside the processed
controllers. -/
theorem attachHands_other (ctrls : List Controller) :
    ∀ (st : HandTrackingState) (id : String), (∀ c ∈ ctrls, id ≠ c.uniqueId) →
      (attachHands st ctrls).1.attachedHands id = st.attachedHands id := by
  induction ctrls with
  | nil => intro st id _; rfl
  | cons c rest ih =>
    intro st id hni
    show (attachHands (attachHand st c).1 rest).1.attachedHands id = _
    rw [ih _ id (fun c2 hc2 => hni c2 (List.mem_cons_of_mem c hc2))]
    exact attachHand_other st c id (hni c (List.mem_cons_self c rest))

/-- The attach loop fires exactly one `onHandAddedObservable` notification
per eligible controller, in order, and keeps the joint meshes. -/
theorem attachHands_events (ctrls : List Controller) :
    ∀ st : HandTrackingState, st.jointMeshes = true →
      (attachHands st ctrls).2 =
        (ctrls.filter eligibleController).map (fun c => HandEvent.added ⟨c⟩) ∧
      (attachHands st ctrls).1.jointMeshes = true := by
  induction ctrls with
  | nil => intro st hj; exact ⟨rfl, hj⟩
  | cons c rest ih =>
    intro st hj
    obtain ⟨ihe, ihj⟩ := ih (attachHand st c).1
      (by rw [attachHand_jointMeshes]; exact hj)
    refine ⟨?_, ihj⟩
    show (attachHand st c).2 ++ (attachHands (attachHand st c).1 rest).2 = _
    by_cases he : eligibleController c = true
    · obtain ⟨hh, hn⟩ := (eligibleController_iff c).mp he
      rw [ihe, attachHand_eligible_eq st c hj hh hn]
      simp [List.filter_cons, he]
    · have he2 : eligibleController c = false := by
        cases hb : eligibleController c
        · rfl
        · exact absurd hb he
      rw [ihe, attachHand_ineligible st c he2]
      simp [List.filter_cons, he2]

/-- After the attach loop, each eligible controller (ids being unique) is
attached under its id. -/
theorem attachHands_lookup (ctrls : List Controller) :
    ∀ st : HandTrackingState, st.jointMeshes = true →
      (ctrls.map Controller.uniqueId).Nodup →
      ∀ c ∈ ctrls, eligibleController c = true →
        (attachHands st ctrls).1.attachedHands c.uniqueId = some ⟨c⟩ := by
  induction ctrls with
  | nil =>
    intro st _ _ c hc
    exact absurd hc (List.not_mem_nil c)
  | cons c0 rest ih =>
    intro st hj hnd c hc he
    have hnd2 : c0.uniqueId ∉ rest.map Controller.uniqueId ∧
        (rest.map Controller.uniqueId).Nodup :=
      List.nodup_cons.mp (by simpa using hnd)
    rcases List.mem_cons.mp hc with rfl | hcr
    · show (attachHands (attachHand st c).1 rest).1.attachedHands c.uniqueId = some ⟨c⟩
      rw [attachHands_other rest _ c.uniqueId ?_]
      · obtain ⟨hh, hn⟩ := (eligibleController_iff c).mp he
        rw [attachHand_eligible_eq st c hj hh hn]
        simp
      · intro c2 hc2 heq
        exact hnd2.1 (by rw [heq]; exact List.mem_map_of_mem Controller.uniqueId hc2)
    · show (attachHands (attachHand st c0).1 rest).1.attachedHands c.uniqueId = some ⟨c⟩
      exact ih _ (by rw [attachHand_jointMeshes]; exact hj) hnd2.2 c hcr he

/-- **C6.** `WebXRHandTracking.attach` wires hand creation to controller
events: every controller already present in `options.xrInput.controllers`
(and every controller later reported, which runs through the same
`_attachHand`) whose input source has a hand and whose handedness is left or
right gets exactly one `WebXRHand`, stored in `_attachedHands` under the
controller's `uniqueId` and in `_trackingHands` under its handedness, with
`onHandAddedObservable` notified once per hand; controllers without a hand or
with handedness `"none"` produce no hand. -/
theorem webXRHandTracking_attach_wiring :
    (∀ (st : HandTrackingState) (c : Controller), st.jointMeshes = true →
      eligibleController c = true →
      (attachHand st c).2 = [HandEvent.added ⟨c⟩] ∧
      (attachHand st c).1.attachedHands c.uniqueId = some ⟨c⟩ ∧
      trackingHands (attachHand st c).1 c.handedness = some ⟨c⟩ ∧
      ∀ id, id ≠ c.uniqueId →
        (attachHand st c).1.attachedHands id = st.attachedHands id) ∧
    (∀ (st : HandTrackingState) (c : Controller), eligibleController c = false →
      attachHand st c = (st, [])) ∧
    (∀ (st : HandTrackingState) (ctrls : List Controller),
      (handTrackingAttach st ctrls).2 =
        (ctrls.filter eligibleController).map (fun c => HandEvent.added ⟨c⟩)) ∧
    (∀ (st : HandTrackingState) (ctrls : List Controller),
      (ctrls.map Controller.uniqueId).Nodup →
      ∀ c ∈ ctrls, eligibleController c = true →
        (handTrackingAttach st ctrls).1.attachedHands c.uniqueId = some ⟨c⟩) := by
  refine ⟨?_, attachHand_ineligible, ?_, ?_⟩
  · intro st c hj he
    obtain ⟨hh, hn⟩ := (eligibleController_iff c).mp he
    rw [attachHand_eligible_eq st c hj hh hn]
    refine ⟨rfl, by simp, ?_, ?_⟩
    · cases hch : c.handedness with
      | left => simp [trackingHands]
      | right => simp [trackingHands]
      | none => exact absurd hch hn
    · intro id hid
      simp [hid]
  · intro st ctrls
    exact (attachHands_events ctrls { st with jointMeshes := true } rfl).1
  · intro st ctrls hnd c hc he
    exact attachHands_lookup ctrls { st with jointMeshes := true } rfl hnd c hc he

/-- Witness for C6: attaching with a left hand, a controller without a hand,
and a handedness-"none" controller creates exactly one hand, registered
under id `"a"`. -/
theorem webXRHandTracking_attach_wiring_witness :
    (handTrackingAttach initialHandTrackingState
      [⟨"a", true, Handedness.left⟩, ⟨"b", false, Handedness.right⟩,
       ⟨"c", true, Handedness.none⟩]).2 =
      [HandEvent.added ⟨⟨"a", true, Handedness.left⟩⟩] ∧
    (handTrackingAttach initialHandTrackingState
      [⟨"a", true, Handedness.left⟩, ⟨"b", false, Handedness.right⟩,
       ⟨"c", true, Handedness.none⟩]).1.attachedHands "a" =
      some ⟨⟨"a", true, Handedness.left⟩⟩ := by
  obtain ⟨e1, e2, e3, e4⟩ := webXRHandTracking_attach_wiring
  constructor
  · rw [e3 initialHandTrackingState
      [⟨"a", true, Handedness.left⟩, ⟨"b", false, Handedness.right⟩,
       ⟨"c", true, Handedness.none⟩]]
    rfl
  · exact e4 initialHandTrackingState
      [⟨"a", true, Handedness.left⟩, ⟨"b", false, Handedness.right⟩,
       ⟨"c", true, Handedness.none⟩] (by simp) ⟨"a", true, Handedness.left⟩
      (by simp) rfl

/-- `_detachHandById` on an unregistered id does nothing. -/
theorem detachHandById_none (st : HandTrackingState) (id : String)
    (hget : st.attachedHands id = Option.none) :
    detachHandById st id = (st, []) := by
  unfold detachHandById getHandByControllerId
  rw [hget]

/-- `_detachHandById` on a registered id, as an equation on the definition
body. -/
theorem detachHandById_some_eq (st : HandTrackingState) (id : String) (hand : WebXRHand)
    (hget : st.attachedHands id = some hand) :
    detachHandById st id =
      (let hd := if hand.xrController.handedness = Handedness.left then Handedness.left
                 else Handedness.right
       let clear : Bool := match trackingHands st hd with
         | some h2 => decide (h2.xrController.uniqueId = id)
         | Option.none => false
       let st2 := if clear then
           (if hd = Handedness.left then { st with trackingLeft := Option.none }
            else { st with trackingRight := Option.none })
         else st
       ({ st2 with attachedHands := fun k => if k = id then Option.none
            else st2.attachedHands k },
        [HandEvent.removed hand, HandEvent.disposed hand])) := by
  unfold detachHandById getHandByControllerId
  rw [hget]

/-- After `_detachHandById` on a registered id, that id no longer resolves. -/
theorem detach_attached_self (st : HandTrackingState) (id : String) (hand : WebXRHand)
    (hget : st.attachedHands id = some hand) :
    getHandByControllerId (detachHandById st id).1 id = Option.none := by
  simp [getHandByControllerId, detachHandById_some_eq st id hand hget]

/-- The side effects of `_detachHandById` on a registered id: the
`onHandRemovedObservable` notification fires, then the hand is disposed. -/
theorem detach_events (st : HandTrackingState) (id : String) (hand : WebXRHand)
    (hget : st.attachedHands id = some hand) :
    (detachHandById st id).2 = [HandEvent.removed hand, HandEvent.disposed hand] := by
  simp [detachHandById_some_eq st id hand hget]

/-- `_detachHandById` clears the tracked hand of the detached hand's
handedness when it is the detached hand. -/
theorem detach_tracking_cleared (st : HandTrackingState) (id : String) (hand : WebXRHand)
    (hget : st.attachedHands id = some hand) (hd2 : Handedness)
    (htr : trackingHands st hd2 = some hand)
    (hid : hand.xrController.uniqueId = id)
    (hhd : (if hand.xrController.handedness = Handedness.left then Handedness.left
        else Handedness.right) = hd2) :
    trackingHands (detachHandById st id).1 hd2 = Option.none := by
  rw [detachHandById_some_eq st id hand hget]
  cases hd2 with
  | none => exact Option.noConfusion htr
  | left =>
    simp only [hhd, htr, hid]
    simp [trackingHands]
  | right =>
    simp only [hhd, htr, hid]
    simp [trackingHands]

/-- Deleting a key preserves the registry invariant, provided neither tracked
hand is registered under the deleted id and the tracking slots either kept
their value or were cleared. -/
theorem handInvariant_core (st st2 : HandTrackingState) (id : String)
    (h2a : st2.attachedHands = st.attachedHands)
    (h2l : st2.trackingLeft = st.trackingLeft ∨ st2.trackingLeft = Option.none)
    (h2r : st2.trackingRight = st.trackingRight ∨ st2.trackingRight = Option.none)
    (inv : HandInvariant st)
    (hsafe_l : ∀ hand2, st2.trackingLeft = some hand2 →
      hand2.xrController.uniqueId ≠ id)
    (hsafe_r : ∀ hand2, st2.trackingRight = some hand2 →
      hand2.xrController.uniqueId ≠ id) :
    HandInvariant { st2 with attachedHands := (fun k => if k = id then Option.none
      else st2.attachedHands k) } := by
  obtain ⟨inv1, inv2, inv3⟩ := inv
  refine ⟨?_, ?_, ?_⟩
  · intro k hand2 hk
    have hk2 : (if k = id then Option.none else st2.attachedHands k) = some hand2 := hk
    by_cases hkid : k = id
    · rw [if_pos hkid] at hk2
      exact Option.noConfusion hk2
    · rw [if_neg hkid] at hk2
      rw [h2a] at hk2
      exact inv1 k hand2 hk2
  · intro hand2 htl2
    have htl3 : st2.trackingLeft = some hand2 := htl2
    have hne := hsafe_l hand2 htl3
    have hst : st.trackingLeft = some hand2 := by
      rcases h2l with h | h
      · rw [← h]; exact htl3
      · rw [h] at htl3; exact Option.noConfusion htl3
    obtain ⟨hA, hB⟩ := inv2 hand2 hst
    refine ⟨?_, hB⟩
    show (if hand2.xrController.uniqueId = id then Option.none
        else st2.attachedHands hand2.xrController.uniqueId) = some hand2
    rw [if_neg hne, h2a]
    exact hA
  · intro hand2 htr2
    have htr3 : st2.trackingRight = some hand2 := htr2
    have hne := hsafe_r hand2 htr3
    have hst : st.trackingRight = some hand2 := by
      rcases h2r with h | h
      · rw [← h]; exact htr3
      · rw [h] at htr3; exact Option.noConfusion htr3
    obtain ⟨hA, hB⟩ := inv3 hand2 hst
    refine ⟨?_, hB⟩
    show (if hand2.xrController.uniqueId = id then Option.none
        else st2.attachedHands hand2.xrController.uniqueId) = some hand2
    rw [if_neg hne, h2a]
    exact hA

/-- A fresh attach preserves the registry invariant. -/
theorem handInvariant_attach (st : HandTrackingState) (c : Controller)
    (inv : HandInvariant st)
    (hfresh : st.attachedHands c.uniqueId = Option.none) :
    HandInvariant (attachHand st c).1 := by
  obtain ⟨inv1, inv2, inv3⟩ := inv
  unfold attachHand
  split
  · exact ⟨inv1, inv2, inv3⟩
  · refine ⟨?_, ?_, ?_⟩
    · intro id hand2 hid
      have hid2 : (if id = c.uniqueId then some (WebXRHand.mk c)
          else st.attachedHands id) = some hand2 := hid
      by_cases hidc : id = c.uniqueId
      · rw [if_pos hidc] at hid2
        cases Option.some.inj hid2
        exact hidc.symm
      · rw [if_neg hidc] at hid2
        exact inv1 id hand2 hid2
    · intro hand2 htl
      have htl2 : (if c.handedness = Handedness.left then some (WebXRHand.mk c)
          else st.trackingLeft) = some hand2 := htl
      by_cases hcl : c.handedness = Handedness.left
      · rw [if_pos hcl] at htl2
        cases Option.some.inj htl2
        refine ⟨?_, hcl⟩
        show (if c.uniqueId = c.uniqueId then some (WebXRHand.mk c)
            else st.attachedHands c.uniqueId) = some (WebXRHand.mk c)
        rw [if_pos rfl]
      · rw [if_neg hcl] at htl2
        obtain ⟨hA, hB⟩ := inv2 hand2 htl2
        refine ⟨?_, hB⟩
        have hne2 : ¬(hand2.xrController.uniqueId = c.uniqueId) := by
          intro heq
          rw [heq, hfresh] at hA
          exact Option.noConfusion hA
        show (if hand2.xrController.uniqueId = c.uniqueId then some (WebXRHand.mk c)
            else st.attachedHands hand2.xrController.uniqueId) = some hand2
        rw [if_neg hne2]
        exact hA
    · intro hand2 htr
      have htr2 : (if c.handedness = Handedness.right then some (WebXRHand.mk c)
          else st.trackingRight) = some hand2 := htr
      by_cases hcr : c.handedness = Handedness.right
      · rw [if_pos hcr] at htr2
        cases Option.some.inj htr2
        refine ⟨?_, hcr⟩
        show (if c.uniqueId = c.uniqueId then some (WebXRHand.mk c)
            else st.attachedHands c.uniqueId) = some (WebXRHand.mk c)
        rw [if_pos rfl]
      · rw [if_neg hcr] at htr2
        obtain ⟨hA, hB⟩ := inv3 hand2 htr2
        refine ⟨?_, hB⟩
        have hne2 : ¬(hand2.xrController.uniqueId = c.uniqueId) := by
          intro heq
          rw [heq, hfresh] at hA
          exact Option.noConfusion hA
        show (if hand2.xrController.uniqueId = c.uniqueId then some (WebXRHand.mk c)
            else st.attachedHands hand2.xrController.uniqueId) = some hand2
        rw [if_neg hne2]
        exact hA

/-- Detaching preserves the registry invariant. -/
theorem handInvariant_detach (st : HandTrackingState) (id : String)
    (inv : HandInvariant st) : HandInvariant (detachHandById st id).1 := by
  obtain ⟨inv1, inv2, inv3⟩ := inv
  cases hget : st.attachedHands id with
  | none =>
    rw [detachHandById_none st id hget]
    exact ⟨inv1, inv2, inv3⟩
  | some hand =>
    rw [detachHandById_some_eq st id hand hget]
    refine handInvariant_core st
      (if (match trackingHands st (if hand.xrController.handedness = Handedness.left
            then Handedness.left else Handedness.right) with
          | some h2 => decide (h2.xrController.uniqueId = id)
          | Option.none => false) = true then
        (if (if hand.xrController.handedness = Handedness.left then Handedness.left
            else Handedness.right) = Handedness.left
          then { st with trackingLeft := Option.none }
          else { st with trackingRight := Option.none })
      else st) id ?_ ?_ ?_ ⟨inv1, inv2, inv3⟩ ?_ ?_
    · split <;> (try split) <;> (try split) <;> rfl
    · split <;> (try split) <;> (try split) <;> simp
    · split <;> (try split) <;> (try split) <;> simp
    · intro hand2 htl3 heq
      by_cases hl : hand.xrController.handedness = Handedness.left
      · rw [if_pos hl] at htl3
        rw [if_pos rfl] at htl3
        by_cases hC : (match trackingHands st Handedness.left with
            | some h2 => decide (h2.xrController.uniqueId = id)
            | Option.none => false) = true
        · rw [if_pos hC] at htl3
          exact Option.noConfusion htl3
        · rw [if_neg hC] at htl3
          obtain ⟨hA, hB⟩ := inv2 hand2 htl3
          rw [heq, hget] at hA
          cases Option.some.inj hA
          apply hC
          rw [show trackingHands st Handedness.left = st.trackingLeft from rfl, htl3]
          simp [heq]
      · rw [if_neg hl] at htl3
        rw [if_neg (by decide : ¬(Handedness.right = Handedness.left))] at htl3
        have htl4 : st.trackingLeft = some hand2 := by
          by_cases hC : (match trackingHands st Handedness.right with
              | some h2 => decide (h2.xrController.uniqueId = id)
              | Option.none => false) = true
          · rw [if_pos hC] at htl3; exact htl3
          · rw [if_neg hC] at htl3; exact htl3
        obtain ⟨hA, hB⟩ := inv2 hand2 htl4
        rw [heq, hget] at hA
        cases Option.some.inj hA
        exact hl hB
    · intro hand2 htr3 heq
      by_cases hl : hand.xrController.handedness = Handedness.left
      · rw [if_pos hl] at htr3
        rw [if_pos rfl] at htr3
        have htr4 : st.trackingRight = some hand2 := by
          by_cases hC : (match trackingHands st Handedness.left with
              | some h2 => decide (h2.xrController.uniqueId = id)
              | Option.none => false) = true
          · rw [if_pos hC] at htr3; exact htr3
          · rw [if_neg hC] at htr3; exact htr3
        obtain ⟨hA, hB⟩ := inv3 hand2 htr4
        rw [heq, hget] at hA
        cases Option.some.inj hA
        rw [hB] at hl
        exact Handedness.noConfusion hl
      · rw [if_neg hl] at htr3
        rw [if_neg (by decide : ¬(Handedness.right = Handedness.left))] at htr3
        by_cases hC : (match trackingHands st Handedness.right with
            | some h2 => decide (h2.xrController.uniqueId = id)
            | Option.none => false) = true
        · rw [if_pos hC] at htr3
          exact Option.noConfusion htr3
        · rw [if_neg hC] at htr3
          obtain ⟨hA, hB⟩ := inv3 hand2 htr3
          rw [heq, hget] at hA
          cases Option.some.inj hA
          apply hC
          rw [show trackingHands st Handedness.right = st.trackingRight from rfl, htr3]
          simp [heq]

/-- Every state reachable through the feature's transitions satisfies the
registry invariant. -/
theorem reachableHandState_invariant (st : HandTrackingState)
    (h : ReachableHandState st) : HandInvariant st := by
  induction h with
  | init =>
    exact ⟨fun id hand h2 => Option.noConfusion h2,
      fun hand h2 => Option.noConfusion h2, fun hand h2 => Option.noConfusion h2⟩
  | featureAttach st2 h2 ih => exact ih
  | attachStep st2 c h2 hfresh ih => exact handInvariant_attach st2 c ih hfresh
  | detachStep st2 id h2 ih => exact handInvariant_detach st2 id ih

/-- **C7.** The hand registries of `WebXRHandTracking` stay consistent under
attach and detach: at every reachable state, for each handedness the tracked
hand (when present) has its controller's `uniqueId` as a key of
`_attachedHands`; `getHandByHandedness("none")` always returns `null`; and
after `_detachHandById(id)` for a registered id, `getHandByControllerId(id)`
returns `null`, the hand is removed from `_trackingHands` when it was the
tracked hand for its handedness, and `onHandRemovedObservable` observers are
notified before the hand is disposed. -/
theorem webXRHandTracking_registry_consistency (st : HandTrackingState)
    (hreach : ReachableHandState st) :
    (∀ (hd : Handedness) (hand : WebXRHand), trackingHands st hd = some hand →
      st.attachedHands hand.xrController.uniqueId ≠ Option.none) ∧
    getHandByHandedness st Handedness.none = Option.none ∧
    (∀ (id : String) (hand : WebXRHand), st.attachedHands id = some hand →
      getHandByControllerId (detachHandById st id).1 id = Option.none ∧
      (∀ hd2, trackingHands st hd2 = some hand →
        trackingHands (detachHandById st id).1 hd2 = Option.none) ∧
      (detachHandById st id).2 =
        [HandEvent.removed hand, HandEvent.disposed hand]) := by
  obtain ⟨inv1, inv2, inv3⟩ := reachableHandState_invariant st hreach
  refine ⟨?_, rfl, ?_⟩
  · intro hd hand htr
    cases hd with
    | none => exact Option.noConfusion htr
    | left =>
      have h := (inv2 hand htr).1
      rw [h]
      exact fun hc => Option.noConfusion hc
    | right =>
      have h := (inv3 hand htr).1
      rw [h]
      exact fun hc => Option.noConfusion hc
  · intro id hand hget
    have hid : hand.xrController.uniqueId = id := inv1 id hand hget
    refine ⟨detach_attached_self st id hand hget, ?_, detach_events st id hand hget⟩
    intro hd2 htr2
    cases hd2 with
    | none => exact Option.noConfusion htr2
    | left =>
      have hB := (inv2 hand htr2).2
      exact detach_tracking_cleared st id hand hget Handedness.left htr2 hid (by simp [hB])
    | right =>
      have hB := (inv3 hand htr2).2
      exact detach_tracking_cleared st id hand hget Handedness.right htr2 hid (by simp [hB])

/-- Witness for C7: after attaching a left-hand controller `"a"` to the
freshly attached feature, looking up handedness `"none"` yields `null`, and
detaching `"a"` fires the removal notification before disposal. -/
theorem webXRHandTracking_registry_consistency_witness :
    getHandByHandedness (attachHand { initialHandTrackingState with jointMeshes := true }
      ⟨"a", true, Handedness.left⟩).1 Handedness.none = Option.none ∧
    (detachHandById (attachHand { initialHandTrackingState with jointMeshes := true }
      ⟨"a", true, Handedness.left⟩).1 "a").2 =
      [HandEvent.removed ⟨⟨"a", true, Handedness.left⟩⟩,
       HandEvent.disposed ⟨⟨"a", true, Handedness.left⟩⟩] := by
  have hreach : ReachableHandState (attachHand
      { initialHandTrackingState with jointMeshes := true }
      ⟨"a", true, Handedness.left⟩).1 :=
    ReachableHandState.attachStep _ _
      (ReachableHandState.featureAttach _ ReachableHandState.init) rfl
  obtain ⟨p1, p2, p3⟩ := webXRHandTracking_registry_consistency _ hreach
  exact ⟨p2, (p3 "a" ⟨⟨"a", true, Handedness.left⟩⟩ rfl).2.2⟩

end Babylon
